import Mathlib

/-!
Shallow embedding of the MONAI-label local datastore
(`monailabel/utils/datastore/local_v2.py`) and proofs about the spec's
claims for it.

Modelling conventions:
* Python `dict`s (which preserve insertion order and have unique keys) are
  association lists `List (String × α)`; `dictSet` mirrors `d[k] = v`
  (update in place if the key exists, else append) and `dictGet` mirrors
  `d.get(k)` (first match).
* JSON-serializable `info` values are modelled by the inductive `JValue`.
* A file on disk is an `FSFile` with a `base` (the filename stem, i.e.
  the name with the full compound extension removed, exactly the string
  the reconciler computes as `file.replace(ext, "")`) and `ext` (the
  joined `pathlib` suffixes); the on-disk name is `base ++ ext`.
* Directory listings (`os.listdir` filtered through the configured
  patterns) are the `files` field of a `DirState`, in scan order; on-disk
  entries that do not match the patterns (invisible to `_list_files` but
  visible to `os.path.exists`) are the `extra` names.
* Wall-clock time, file modification timestamps and the lock are explicit
  fields of `DatastoreState`; IO never fails in the model except where the
  source code itself checks for and handles a failure (JSON parse errors).
-/

namespace MonaiLocal

/-- JSON-serializable values, the model of the `Any` payloads stored in the
`info` maps and of the persisted datastore document. -/
inductive JValue where
  | str (s : String)
  | num (n : Int)
  | bool (b : Bool)
  | null
  | arr (xs : List JValue)
  | obj (fields : List (String × JValue))

/-- Python `d.get(k)`: the value at the first matching key, if any. -/
def dictGet {α : Type} (d : List (String × α)) (k : String) : Option α :=
  match d with
  | [] => none
  | (k', v) :: rest => if k' == k then some v else dictGet rest k

/-- Python `d[k] = v`: replace the value at an existing key in place
(keeping its position, as Python dicts do), else append the binding. -/
def dictSet {α : Type} (d : List (String × α)) (k : String) (v : α) :
    List (String × α) :=
  match d with
  | [] => [(k, v)]
  | (k', v') :: rest =>
    if k' == k then (k, v) :: rest else (k', v') :: dictSet rest k v

/-- Python `base.update(upd)`: fold the updates into the base dict in
order. -/
def dictMerge (base upd : List (String × JValue)) : List (String × JValue) :=
  upd.foldl (fun acc kv => dictSet acc kv.1 kv.2) base

/-- Keys of a dict, in order. -/
def keysOf {α : Type} (d : List (String × α)) : List String :=
  d.map Prod.fst

/-- The image id inferred from a label id: `label_id.split("+")[0]`, i.e.
the characters before the first `+`. -/
def imageIdOf (s : String) : String :=
  ⟨s.data.takeWhile (fun c => !(c == '+'))⟩

/-- `DataModel` of the source: one physical artifact. -/
structure DataModel where
  id : String
  ext : String
  info : List (String × JValue)

/-- `DataModel.path`: the on-disk filename `id + ext`. -/
def DataModel.path (d : DataModel) : String := d.id ++ d.ext

/-- `ImageLabelModel` of the source: one image plus its tag-keyed labels. -/
structure ImageLabelModel where
  image : DataModel
  labels : List (String × DataModel)

/-- `ImageLabelModel.label(id)`: the first `(tag, label)` pair whose label
has the given id.  The Python method returns the pair `(None, None)` when
nothing matches; we keep the two components as `Option`s because callers
test them separately (`if tag`, `if label`), and the *pair itself* is
what `filter_by_id` tests for truthiness. -/
def ImageLabelModel.label (o : ImageLabelModel) (id : String) :
    Option String × Option DataModel :=
  match o.labels.find? (fun p => p.2.id == id) with
  | some (t, l) => (some t, some l)
  | none => (none, none)

/-- `LocalDatastoreModel` of the source: the aggregate index. -/
structure LocalDatastoreModel where
  name : String
  description : String
  images_dir : String
  labels_dir : String
  objects : List (String × ImageLabelModel)
  base_path : String

/-- `filter_by_tag`: the objects (in order) that have a label under the
tag.  A pydantic model instance is truthy, so the Python `if
obj.labels.get(tag)` test is `isSome`. -/
def LocalDatastoreModel.filter_by_tag (m : LocalDatastoreModel)
    (tag : String) : List ImageLabelModel :=
  (m.objects.map Prod.snd).filter (fun o => (dictGet o.labels tag).isSome)

/-- `filter_by_id` as written in the source: `[obj for obj in
self.objects.values() if obj.label(id)]`.  `obj.label(id)` is a 2-tuple —
`(tag, label)` or `(None, None)` — and a non-empty tuple is always truthy
in Python, so the comprehension keeps every object.  We model the
truthiness test on the pair faithfully: it is constantly `true`. -/
def pairTruthy (p : Option String × Option DataModel) : Bool :=
  match p with
  | _ => true

/-- `filter_by_id` (see `pairTruthy` for the truthiness slip). -/
def LocalDatastoreModel.filter_by_id (m : LocalDatastoreModel)
    (id : String) : List ImageLabelModel :=
  (m.objects.map Prod.snd).filter (fun o => pairTruthy (o.label id))

/-- `LocalDatastoreModel.label(id)`: take the first object of
`filter_by_id` (i.e., because of the truthiness slip, the first object of
the datastore when it is non-empty) and return its `label(id)` pair. -/
def LocalDatastoreModel.label (m : LocalDatastoreModel) (id : String) :
    Option String × Option DataModel :=
  match m.filter_by_id id with
  | [] => (none, none)
  | obj :: _ => obj.label id

/-! ## Filesystem model -/
/-- One file as the datastore sees it: `base` is the stem the reconciler
derives (`file.replace(ext, "")`), `ext` the joined `pathlib` suffixes;
the on-disk name is `base ++ ext`. -/
structure FSFile where
  base : String
  ext : String

/-- The on-disk name of a file. -/
def FSFile.name (f : FSFile) : String := f.base ++ f.ext

/-- One directory: `files` is the pattern-filtered listing (`_list_files`)
in scan order, `extra` holds names of on-disk entries that the patterns do
not match (still visible to `os.path.exists`). -/
structure DirState where
  files : List FSFile
  extra : List String

/-- Does a name exist inside the directory? (`os.path.exists`). -/
def DirState.hasName (d : DirState) (n : String) : Bool :=
  d.files.any (fun f => f.name == n) || d.extra.contains n

/-- Overwrite-or-create a file in a directory (`shutil.copy` semantics:
an existing entry of the same name is replaced in place, a new name is
appended to the listing). -/
def DirState.addFile (d : DirState) (f : FSFile) : DirState :=
  if d.files.any (fun g => g.name == f.name) then
    { d with files := d.files.map (fun g => if g.name == f.name then f else g) }
  else
    { d with files := d.files ++ [f] }

/-- Delete the entry of the given name (`shutil.rmtree`). -/
def DirState.removeName (d : DirState) (n : String) : DirState :=
  { files := d.files.filter (fun f => !(f.name == n)),
    extra := d.extra.filter (fun e => !(e == n)) }

/-- The parts of the filesystem the datastore manages: the image root and
the per-tag label directories (`labels_dir/<tag>`), keyed by tag in
`os.listdir` order.  The persisted config file is modelled separately in
`DatastoreState`. -/
structure FileSystem where
  images : DirState
  labelDirs : List (String × DirState)

/-- Does a name exist in the image root? -/
def FileSystem.hasImage (fs : FileSystem) (n : String) : Bool :=
  fs.images.hasName n

/-- Does a name exist in the label directory of a tag?  A missing tag
directory makes the joined path non-existent. -/
def FileSystem.hasLabel (fs : FileSystem) (tag n : String) : Bool :=
  match dictGet fs.labelDirs tag with
  | some d => d.hasName n
  | none => false

/-- Copy a file into the image root. -/
def FileSystem.addImageFile (fs : FileSystem) (f : FSFile) : FileSystem :=
  { fs with images := fs.images.addFile f }

/-- Delete a name from the image root. -/
def FileSystem.removeImageName (fs : FileSystem) (n : String) : FileSystem :=
  { fs with images := fs.images.removeName n }

/-- `os.makedirs(label_path, exist_ok=True)` followed by a copy: create
the tag directory if needed, then overwrite-or-create the file in it. -/
def FileSystem.addLabelFile (fs : FileSystem) (tag : String) (f : FSFile) :
    FileSystem :=
  match dictGet fs.labelDirs tag with
  | some _ =>
    let dirs := fs.labelDirs.map
      (fun td => if td.1 == tag then (td.1, td.2.addFile f) else td)
    { fs with labelDirs := dirs }
  | none => { fs with labelDirs := fs.labelDirs ++ [(tag, ⟨[f], []⟩)] }

/-- Delete a name from the label directory of a tag (no-op if the path
does not exist). -/
def FileSystem.removeLabelName (fs : FileSystem) (tag n : String) :
    FileSystem :=
  let dirs := fs.labelDirs.map
    (fun td => if td.1 == tag then (td.1, td.2.removeName n) else td)
  { fs with labelDirs := dirs }

/-! ## Datastore state

`DatastoreState` bundles the in-memory `LocalDatastoreModel`, the managed
filesystem, and the persistence/watcher bookkeeping fields of
`LocalDatastore.__init__`: `_config_ts` (last-seen mtime), the persisted
config file (its current mtime and its parse: `none` = absent,
`some none` = present but malformed, `some (some m)` = parses to `m`),
`_ignore_event_count`, `_ignore_event_config`, `_auto_reload`, and the
current wall clock (`time.time()`). -/
/-- The error taxonomy raised by the façade. -/
inductive Exn where
  | imageNotFound
  | labelNotFound

/-- Full mutable state of one `LocalDatastore` instance plus its managed
filesystem. -/
structure DatastoreState where
  datastore : LocalDatastoreModel
  fs : FileSystem
  configTs : Nat
  fileTs : Nat
  configFile : Option (Option LocalDatastoreModel)
  ignoreEventCount : Nat
  ignoreEventConfig : Bool
  autoReload : Bool
  now : Nat

/-! ## Query operations (pure reads) -/
/-- `list_images`: the image ids, in insertion order. -/
def list_images (s : DatastoreState) : List String :=
  keysOf s.datastore.objects

/-- `get_image`: the readable content of the image, modelled as the name
of the file that would be read; `None` when the id is unknown. -/
def get_image (s : DatastoreState) (image_id : String) : Option String :=
  (dictGet s.datastore.objects image_id).map (fun obj => obj.image.path)

/-- `get_image_uri`: the resolved path of the image file, modelled by its
name; the empty string when the id is unknown. -/
def get_image_uri (s : DatastoreState) (image_id : String) : String :=
  match dictGet s.datastore.objects image_id with
  | some obj => obj.image.path
  | none => ""

/-- `get_label`: content of the label found by the datastore-wide label
lookup; the Python code returns `None` when the returned tag is falsy. -/
def get_label (s : DatastoreState) (label_id : String) : Option String :=
  match s.datastore.label label_id with
  | (some _, some l) => some l.path
  | _ => none

/-- `get_label_uri`: resolved path of the label (modelled by its name),
or the empty string when the tag of the lookup is falsy. -/
def get_label_uri (s : DatastoreState) (label_id : String) : String :=
  match s.datastore.label label_id with
  | (some _, some l) => l.path
  | _ => ""

/-- `get_labels_by_image_id`: dict from label id to tag (built by
insertion over the group's labels; duplicate label ids across tags
collapse onto the last tag, as in the Python dict comprehension). -/
def get_labels_by_image_id (s : DatastoreState) (image_id : String) :
    List (String × String) :=
  match dictGet s.datastore.objects image_id with
  | some obj => obj.labels.foldl (fun acc tl => dictSet acc tl.2.id tl.1) []
  | none => []

/-- `get_label_by_image_id`: the label id under the tag, or `""`. -/
def get_label_by_image_id (s : DatastoreState) (image_id tag : String) :
    String :=
  match dictGet s.datastore.objects image_id with
  | some obj =>
    match dictGet obj.labels tag with
    | some l => l.id
    | none => ""
  | none => ""

/-- `get_label_info`: info of the label found by the datastore-wide label
lookup (conditioned on the label component), else the empty dict. -/
def get_label_info (s : DatastoreState) (label_id : String) :
    List (String × JValue) :=
  match s.datastore.label label_id with
  | (_, some l) => l.info
  | _ => []

/-! ## Reconciler (`_reconcile_datastore` and its three helpers) -/
/-- One step of `_remove_non_existing` over the labels of a group: keep
the labels whose backing file exists under their tag directory, count the
dropped ones. -/
def pruneLabels (fs : FileSystem) (labels : List (String × DataModel)) :
    List (String × DataModel) × Nat :=
  match labels with
  | [] => ([], 0)
  | (tag, l) :: rest =>
    let r := pruneLabels fs rest
    if fs.hasLabel tag l.path then ((tag, l) :: r.1, r.2) else (r.1, r.2 + 1)

/-- `_remove_non_existing`: drop whole groups whose image file is missing
(one invalidation per group) and, for the surviving groups, drop labels
whose file is missing (one invalidation per label). -/
def removeNonExisting (fs : FileSystem)
    (objects : List (String × ImageLabelModel)) :
    List (String × ImageLabelModel) × Nat :=
  match objects with
  | [] => ([], 0)
  | (image_id, obj) :: rest =>
    let r := removeNonExisting fs rest
    if fs.hasImage obj.image.path then
      let p := pruneLabels fs obj.labels
      ((image_id, { obj with labels := p.1 }) :: r.1, r.2 + p.2)
    else (r.1, r.2 + 1)

/-- The loop of `_add_non_existing_images`: `image_ids` is the key list
snapshot taken before the loop; every file whose stem is not in it becomes
a fresh group (overwriting, with one invalidation each, even when two
files share a stem). -/
def addImagesLoop (image_ids : List String) (files : List FSFile)
    (objects : List (String × ImageLabelModel)) :
    List (String × ImageLabelModel) × Nat :=
  match files with
  | [] => (objects, 0)
  | f :: rest =>
    if f.base ∈ image_ids then addImagesLoop image_ids rest objects
    else
      let objects' := dictSet objects f.base ⟨⟨f.base, f.ext, []⟩, []⟩
      let r := addImagesLoop image_ids rest objects'
      (r.1, r.2 + 1)

/-- `_add_non_existing_images`. -/
def addNonExistingImages (fs : FileSystem)
    (objects : List (String × ImageLabelModel)) :
    List (String × ImageLabelModel) × Nat :=
  addImagesLoop (keysOf objects) fs.images.files objects

/-- The label ids recorded under a tag:
`[obj.labels[tag].id for obj in self.filter_by_tag(tag)]`. -/
def labelIdsOf (objects : List (String × ImageLabelModel)) (tag : String) :
    List String :=
  objects.filterMap (fun kg => (dictGet kg.2.labels tag).map (fun l => l.id))

/-- The loop of `_add_non_existing_labels`: `label_ids` is the snapshot
taken before the loop; a file whose stem is not in it is attached (with a
fresh empty-info entry) to the group named by `imageIdOf` of its stem, or
skipped as an orphan when no such group exists. -/
def addLabelsLoop (tag : String) (label_ids : List String)
    (files : List FSFile) (objects : List (String × ImageLabelModel)) :
    List (String × ImageLabelModel) × Nat :=
  match files with
  | [] => (objects, 0)
  | f :: rest =>
    if f.base ∈ label_ids then addLabelsLoop tag label_ids rest objects
    else
      match dictGet objects (imageIdOf f.base) with
      | none => addLabelsLoop tag label_ids rest objects
      | some obj =>
        let obj' := { obj with labels := dictSet obj.labels tag ⟨f.base, f.ext, []⟩ }
        let objects' := dictSet objects (imageIdOf f.base) obj'
        let r := addLabelsLoop tag label_ids rest objects'
        (r.1, r.2 + 1)

/-- `_add_non_existing_labels(tag)` for the files of one tag directory. -/
def addNonExistingLabels (tag : String) (d : DirState)
    (objects : List (String × ImageLabelModel)) :
    List (String × ImageLabelModel) × Nat :=
  addLabelsLoop tag (labelIdsOf objects tag) d.files objects

/-- The `for tag in tags` loop of `_reconcile_datastore`, over the
subdirectories of the labels root in listing order. -/
def addLabelsTags (dirs : List (String × DirState))
    (objects : List (String × ImageLabelModel)) :
    List (String × ImageLabelModel) × Nat :=
  match dirs with
  | [] => (objects, 0)
  | (tag, d) :: rest =>
    let r1 := addNonExistingLabels tag d objects
    let r2 := addLabelsTags rest r1.1
    (r2.1, r1.2 + r2.2)

/-- The four reconciliation passes of `_reconcile_datastore` on the index
model, returning the new model and the total invalidation count. -/
def reconcileModel (fs : FileSystem) (m : LocalDatastoreModel) :
    LocalDatastoreModel × Nat :=
  let r1 := removeNonExisting fs m.objects
  let r2 := addNonExistingImages fs r1.1
  let r3 := addLabelsTags fs.labelDirs r2.1
  let r4 := removeNonExisting fs r3.1
  ({ m with objects := r4.1 }, r1.2 + r2.2 + r3.2 + r4.2)

/-! ## Persistence layer -/
/-- `_update_datastore_file`: write the current index (minus `base_path`)
to the config file under the lock, arm the config-modify suppression
flag just before the write, and record the new mtime as the last-seen
timestamp.  The written document parses back, by the round-trip property,
to the index with a defaulted `base_path`. -/
def updateDatastoreFile (s : DatastoreState) : DatastoreState :=
  { s with
    ignoreEventConfig := true,
    configFile := some (some { s.datastore with base_path := "" }),
    fileTs := s.fileTs + 1,
    configTs := s.fileTs + 1 }

/-- `_init_from_datastore_file(throw_exception)`: skip when the file is
absent or its mtime equals the last-seen timestamp; otherwise parse and
wholesale-replace the in-memory index (recording the new timestamp).  A
parse failure leaves the state untouched and propagates (`none`) only
when `throw` is set. -/
def initFromFileT (throw : Bool) (s : DatastoreState) :
    Option DatastoreState :=
  match s.configFile with
  | none => some s
  | some parsed =>
    if s.configTs == s.fileTs then some s
    else
      match parsed with
      | some m => some { s with datastore := m, configTs := s.fileTs }
      | none => if throw then none else some s

/-- The non-throwing reload used by `refresh` and the watcher. -/
def initFromFile (s : DatastoreState) : DatastoreState :=
  (initFromFileT false s).getD s

/-- `_reconcile_datastore` on the full state: run the passes and, when the
total invalidation count is non-zero, rewrite the persisted file. -/
def reconcileDatastore (s : DatastoreState) : DatastoreState × Nat :=
  (if (reconcileModel s.fs s.datastore).2 != 0 then
     updateDatastoreFile { s with datastore := (reconcileModel s.fs s.datastore).1 }
   else { s with datastore := (reconcileModel s.fs s.datastore).1 },
   (reconcileModel s.fs s.datastore).2)

/-- `refresh()`: reload from the persisted file (if its mtime changed),
then reconcile against disk; also reporting the invalidation count of the
reconciliation. -/
def refreshC (s : DatastoreState) : DatastoreState × Nat :=
  reconcileDatastore (initFromFile s)

/-- `refresh()` as the state transformer used by the façade. -/
def refresh (s : DatastoreState) : DatastoreState :=
  (refreshC s).1

/-! ## Façade mutations -/
/-- `add_image(image_id, image_filename)`: derive the id from the source
filename when empty, copy the source to `images_dir/id + ext`, and refresh
unless auto-reload is on.  Returns the id. -/
def add_image_id (image_id : String) (src : FSFile) : String :=
  if image_id == "" then src.base else image_id

/-- The copy step of `add_image`: the source lands in the image root under
`id + ext`. -/
def add_image_copy (s : DatastoreState) (image_id : String) (src : FSFile) :
    DatastoreState :=
  { s with fs := s.fs.addImageFile ⟨add_image_id image_id src, src.ext⟩ }

/-- `add_image(image_id, image_filename)` (see `add_image_id` for the id
derivation and `add_image_copy` for the copy): copy, then refresh unless
auto-reload is on.  Returns the id. -/
def add_image (s : DatastoreState) (image_id : String) (src : FSFile) :
    DatastoreState × String :=
  (if s.autoReload then add_image_copy s image_id src
   else refresh (add_image_copy s image_id src),
   add_image_id image_id src)

/-- `save_label(image_id, label_filename, label_tag, label_info,
label_id)`: raise `ImageNotFoundException` when the image id is unknown;
otherwise compute the destination label id, copy the source into the tag
directory, replace the tag's entry with a fresh one whose info is seeded
with the creation timestamp, and persist under the lock.  (The
`label_info` argument is accepted but never used by the source.)  Returns
the possibly-raised exception, the state, and the label id. -/
def save_label (s : DatastoreState) (image_id : String) (src : FSFile)
    (label_tag : String) (label_info : List (String × JValue))
    (label_id : String) : Option Exn × DatastoreState × String :=
  match dictGet s.datastore.objects image_id with
  | none => (some Exn.imageNotFound, s, "")
  | some obj =>
    let lid := if label_id == "" then image_id else image_id ++ "+" ++ label_id
    let fs' := s.fs.addLabelFile label_tag ⟨lid, src.ext⟩
    let obj' := { obj with
      labels := dictSet obj.labels label_tag ⟨lid, src.ext, [("ts", JValue.num s.now)]⟩ }
    let m' := { s.datastore with objects := dictSet s.datastore.objects image_id obj' }
    (none, updateDatastoreFile { s with fs := fs', datastore := m' }, lid)

/-- `remove_label(label_id)`: look the label up datastore-wide, delete its
file when found, then refresh unless auto-reload is on. -/
def remove_label_delete (s : DatastoreState) (label_id : String) :
    DatastoreState :=
  match s.datastore.label label_id with
  | (some tag, some l) =>
    if s.fs.hasLabel tag l.path then
      { s with fs := s.fs.removeLabelName tag l.path }
    else s
  | _ => s

/-- `remove_label(label_id)` (see `remove_label_delete` for the file
deletion): delete, then refresh unless auto-reload is on. -/
def remove_label (s : DatastoreState) (label_id : String) : DatastoreState :=
  if s.autoReload then remove_label_delete s label_id
  else refresh (remove_label_delete s label_id)

/-- `remove_image(image_id)`: remove every label id of the image's group
(cascading via `remove_label`), then delete the image file, then refresh
unless auto-reload is on; a no-op for an unknown id. -/
def remove_image_labels (s : DatastoreState) (image_id : String) :
    DatastoreState :=
  (keysOf (get_labels_by_image_id s image_id)).foldl
    (fun acc lid => remove_label acc lid) s

/-- The image-file deletion step of `remove_image`, run after the label
cascade: re-fetch the group and delete its image file if it exists. -/
def remove_image_file (s1 : DatastoreState) (image_id : String) :
    DatastoreState :=
  match dictGet s1.datastore.objects image_id with
  | some obj =>
    if s1.fs.hasImage obj.image.path then
      { s1 with fs := s1.fs.removeImageName obj.image.path }
    else s1
  | none => s1

/-- `remove_image(image_id)`: remove every label id of the image's group
(cascading via `remove_label`), then delete the image file, then refresh
unless auto-reload is on; a no-op for an unknown id. -/
def remove_image (s : DatastoreState) (image_id : String) : DatastoreState :=
  if s.autoReload then remove_image_file (remove_image_labels s image_id) image_id
  else refresh (remove_image_file (remove_image_labels s image_id) image_id)

/-- `remove_label_by_tag(label_tag)`: collect the label ids under the tag,
then remove each. -/
def remove_label_by_tag (s : DatastoreState) (label_tag : String) :
    DatastoreState :=
  let label_ids := (s.datastore.filter_by_tag label_tag).filterMap
    (fun obj => (dictGet obj.labels label_tag).map (fun l => l.id))
  label_ids.foldl (fun acc lid => remove_label acc lid) s

/-- `update_image_info(image_id, info)`: raise `ImageNotFoundException`
when the id is unknown, else merge the info and persist. -/
def update_image_info (s : DatastoreState) (image_id : String)
    (info : List (String × JValue)) : Option Exn × DatastoreState :=
  match dictGet s.datastore.objects image_id with
  | none => (some Exn.imageNotFound, s)
  | some obj =>
    let obj' := { obj with image := { obj.image with info := dictMerge obj.image.info info } }
    let m' := { s.datastore with objects := dictSet s.datastore.objects image_id obj' }
    (none, updateDatastoreFile { s with datastore := m' })

/-- `update_label_info(label_id, info)`: raise `LabelNotFoundException`
when the datastore-wide lookup finds nothing, else merge the info into the
found label (which lives in the first group, by the lookup's behaviour)
and persist. -/
def update_label_info_found (s : DatastoreState)
    (info : List (String × JValue)) (k : String) (g : ImageLabelModel)
    (rest : List (String × ImageLabelModel)) (tag : String) (l : DataModel) :
    Option Exn × DatastoreState :=
  let g' := { g with labels := dictSet g.labels tag { l with info := dictMerge l.info info } }
  let m' := { s.datastore with objects := (k, g') :: rest }
  (none, updateDatastoreFile { s with datastore := m' })

/-- `update_label_info(label_id, info)`: raise `LabelNotFoundException`
when the datastore-wide lookup finds nothing, else merge the info into
the found label (which lives in the first group, by the lookup's
behaviour) and persist. -/
def update_label_info (s : DatastoreState) (label_id : String)
    (info : List (String × JValue)) : Option Exn × DatastoreState :=
  match s.datastore.objects with
  | [] => (some Exn.labelNotFound, s)
  | (k, g) :: rest =>
    match g.labels.find? (fun p => p.2.id == label_id) with
    | none => (some Exn.labelNotFound, s)
    | some (tag, l) => update_label_info_found s info k g rest tag l

/-- `set_name`. -/
def set_name (s : DatastoreState) (n : String) : DatastoreState :=
  updateDatastoreFile { s with datastore := { s.datastore with name := n } }

/-- `set_description`. -/
def set_description (s : DatastoreState) (d : String) : DatastoreState :=
  updateDatastoreFile { s with datastore := { s.datastore with description := d } }

/-! ## Watcher callbacks -/
/-- `_on_any_event` (create/delete events): when the suppression counter
is non-zero, consume one unit and drop the event; otherwise run a full
refresh.  The boolean reports whether a refresh was triggered. -/
def onAnyEvent (s : DatastoreState) : DatastoreState × Bool :=
  if s.ignoreEventCount != 0 then
    ({ s with ignoreEventCount := s.ignoreEventCount - 1 }, false)
  else (refresh s, true)

/-- `_on_modify_event`: only the config path is handled; a pending
self-modification flag is consumed, otherwise reload from the file. -/
def onModifyEvent (s : DatastoreState) (isConfigPath : Bool) :
    DatastoreState :=
  if !isConfigPath then s
  else if s.ignoreEventConfig then { s with ignoreEventConfig := false }
  else initFromFile s

/-! ## Small concrete states used by witnesses and counterexamples -/
/-- A group with an image entry and no labels. -/
def imgEntry (id ext : String) : ImageLabelModel := ⟨⟨id, ext, []⟩, []⟩

/-- A default-constructed index (the `LocalDatastoreModel` built in
`__init__`) with the given objects. -/
def mkModel (objects : List (String × ImageLabelModel)) :
    LocalDatastoreModel :=
  ⟨"new-dataset", "New Dataset", ".", "labels", objects, ""⟩

/-- A steady datastore state: last-seen timestamp in sync with the file. -/
def mkState (m : LocalDatastoreModel) (fs : FileSystem)
    (autoReload : Bool) : DatastoreState :=
  { datastore := m, fs := fs, configTs := 5, fileTs := 5,
    configFile := some (some { m with base_path := "" }),
    ignoreEventCount := 0, ignoreEventConfig := false,
    autoReload := autoReload, now := 100 }

/-! ## C2 — save_label round trip (code bug: `filter_by_id` truthiness)

`LocalDatastoreModel.filter_by_id` tests `if obj.label(id)` on a 2-tuple,
which is always truthy, so `label(id)` only ever inspects the *first*
group of the datastore.  Consequently `get_label_info` of a label saved
to any non-first image returns the empty dict instead of the seeded
`{"ts": ...}` info. -/
/-- A steady two-image datastore (`"a"` first, `"b"` second). -/
def twoImageState : DatastoreState :=
  mkState (mkModel [("a", imgEntry "a" ".nii"), ("b", imgEntry "b" ".nii")])
    ⟨⟨[⟨"a", ".nii"⟩, ⟨"b", ".nii"⟩], []⟩, [("final", ⟨[], []⟩)]⟩ false

/-- The state after `save_label("b", f, "final", {})` on `twoImageState`. -/
def twoImageStateSaved : DatastoreState :=
  (save_label twoImageState "b" ⟨"lbl", ".nii"⟩ "final" [] "").2.1

/-! ## C6 — persistence round trip

`_update_datastore_file` writes `json.dumps(self._datastore.dict(exclude=
{"base_path"}), ...)` and `_init_from_datastore_file` reads it back with
`LocalDatastoreModel.parse_file`.  We model the document as a `JValue`
tree: the serializer mirrors pydantic's `.dict()` (all fields, minus the
excluded `base_path`), the parser mirrors pydantic v1 validation
(required fields `name`, `description`, `image`, `id`; defaulted fields
`ext=""`, `info={}`, `labels={}`, `images_dir="."`, `labels_dir="labels"`,
`objects={}`, `base_path=""`; unknown keys ignored; a wrongly-typed field
fails validation). -/
/-- Serialize a `DataModel`. -/
def DataModel.toJson (d : DataModel) : JValue :=
  .obj [("id", .str d.id), ("ext", .str d.ext), ("info", .obj d.info)]

/-- Serialize an `ImageLabelModel`. -/
def ImageLabelModel.toJson (o : ImageLabelModel) : JValue :=
  .obj [("image", o.image.toJson),
        ("labels", .obj (o.labels.map (fun tl => (tl.1, tl.2.toJson))))]

/-- Serialize the index, excluding `base_path` — the exact document
`_update_datastore_file` writes. -/
def LocalDatastoreModel.toJsonNoBase (m : LocalDatastoreModel) : JValue :=
  .obj [("name", .str m.name),
        ("description", .str m.description),
        ("images_dir", .str m.images_dir),
        ("labels_dir", .str m.labels_dir),
        ("objects", .obj (m.objects.map (fun kg => (kg.1, kg.2.toJson))))]

/-- A required string field of a pydantic model. -/
def reqStrField (fields : List (String × JValue)) (k : String) :
    Option String :=
  match dictGet fields k with
  | some (.str s) => some s
  | _ => none

/-- An optional string field with a default. -/
def optStrField (fields : List (String × JValue)) (k dflt : String) :
    Option String :=
  match dictGet fields k with
  | none => some dflt
  | some (.str s) => some s
  | some _ => none

/-- An optional dict field defaulting to the empty dict. -/
def optObjField (fields : List (String × JValue)) (k : String) :
    Option (List (String × JValue)) :=
  match dictGet fields k with
  | none => some []
  | some (.obj fs) => some fs
  | some _ => none

/-- Validate a `DataModel` from a JSON value. -/
def DataModel.parse (j : JValue) : Option DataModel :=
  match j with
  | .obj fields =>
    match reqStrField fields "id" with
    | none => none
    | some id =>
      match optStrField fields "ext" "" with
      | none => none
      | some ext =>
        match optObjField fields "info" with
        | none => none
        | some info => some ⟨id, ext, info⟩
  | _ => none

/-- Validate a `Dict[str, DataModel]` from the fields of a JSON object. -/
def parseLabels (fields : List (String × JValue)) :
    Option (List (String × DataModel)) :=
  match fields with
  | [] => some []
  | (k, v) :: rest =>
    match DataModel.parse v with
    | none => none
    | some l =>
      match parseLabels rest with
      | none => none
      | some ls => some ((k, l) :: ls)

/-- Validate an `ImageLabelModel` from a JSON value. -/
def ImageLabelModel.parse (j : JValue) : Option ImageLabelModel :=
  match j with
  | .obj fields =>
    match dictGet fields "image" with
    | none => none
    | some imgJ =>
      match DataModel.parse imgJ with
      | none => none
      | some img =>
        match optObjField fields "labels" with
        | none => none
        | some labelsJ =>
          match parseLabels labelsJ with
          | none => none
          | some labels => some ⟨img, labels⟩
  | _ => none

/-- Validate a `Dict[str, ImageLabelModel]` from the fields of a JSON
object. -/
def parseObjects (fields : List (String × JValue)) :
    Option (List (String × ImageLabelModel)) :=
  match fields with
  | [] => some []
  | (k, v) :: rest =>
    match ImageLabelModel.parse v with
    | none => none
    | some o =>
      match parseObjects rest with
      | none => none
      | some os => some ((k, o) :: os)

/-- Validate a `LocalDatastoreModel` from a JSON value
(`LocalDatastoreModel.parse_file`); `base_path` is not in the document
and comes out as its pydantic default `""`. -/
def LocalDatastoreModel.parse (j : JValue) : Option LocalDatastoreModel :=
  match j with
  | .obj fields =>
    match reqStrField fields "name" with
    | none => none
    | some name =>
      match reqStrField fields "description" with
      | none => none
      | some description =>
        match optStrField fields "images_dir" "." with
        | none => none
        | some images_dir =>
          match optStrField fields "labels_dir" "labels" with
          | none => none
          | some labels_dir =>
            match optObjField fields "objects" with
            | none => none
            | some objsJ =>
              match parseObjects objsJ with
              | none => none
              | some objects =>
                some ⟨name, description, images_dir, labels_dir, objects, ""⟩
  | _ => none

/-- The dict keys are unique (as Python dicts guarantee). -/
def NodupKeys {α : Type} (d : List (String × α)) : Prop := (keysOf d).Nodup

/-! ## Reconciler consistency predicates -/
/-- Every label id infers the image id that its group key infers (a
consequence of the id-shape invariant of the data model, and exactly the
property that makes the reconciler attach a label to the right group). -/
def InvIds (objects : List (String × ImageLabelModel)) : Prop :=
  ∀ kg ∈ objects, ∀ tl ∈ kg.2.labels, imageIdOf tl.2.id = imageIdOf kg.1

/-- Every recorded image file exists on disk. -/
def ImgOK (fs : FileSystem) (objects : List (String × ImageLabelModel)) :
    Prop :=
  ∀ kg ∈ objects, fs.hasImage kg.2.image.path = true

/-- Every recorded label file exists on disk. -/
def LblOK (fs : FileSystem) (objects : List (String × ImageLabelModel)) :
    Prop :=
  ∀ kg ∈ objects, ∀ tl ∈ kg.2.labels, fs.hasLabel tl.1 tl.2.path = true

/-- Every listed image file is represented by a group. -/
def ImgsCovered (fs : FileSystem)
    (objects : List (String × ImageLabelModel)) : Prop :=
  ∀ f ∈ fs.images.files, f.base ∈ keysOf objects

/-- Every listed label file is either recorded under its tag or an orphan
(its inferred image id has no group). -/
def LblsCovered (fs : FileSystem)
    (objects : List (String × ImageLabelModel)) : Prop :=
  ∀ td ∈ fs.labelDirs, ∀ f ∈ td.2.files,
    f.base ∈ labelIdsOf objects td.1 ∨
    dictGet objects (imageIdOf f.base) = none

/-- The full post-reconciliation consistency bundle. -/
def Consistent (fs : FileSystem)
    (objects : List (String × ImageLabelModel)) : Prop :=
  NodupKeys objects ∧ InvIds objects ∧ ImgOK fs objects ∧ LblOK fs objects ∧
    ImgsCovered fs objects ∧ LblsCovered fs objects

/-- The tag directories have unique names (`os.listdir` of the labels
root). -/
def TagDirsNodup (fs : FileSystem) : Prop := NodupKeys fs.labelDirs

/-- Within each tag directory, any two label files owned by the same
inferred image id carry the same label id — the hypothesis under which
reconciliation is idempotent. -/
def TagUnique (fs : FileSystem) : Prop :=
  ∀ td ∈ fs.labelDirs, ∀ f1 ∈ td.2.files, ∀ f2 ∈ td.2.files,
    imageIdOf f1.base = imageIdOf f2.base → f1.base = f2.base

/-! ## Pass 3 (`_add_non_existing_labels`) lemmas -/
/-- The group keyed `k` holds, under `tag`, a label with id `x`. -/
def HasLabelAt (objects : List (String × ImageLabelModel)) (k tag x : String) :
    Prop :=
  ∃ g l, dictGet objects k = some g ∧ dictGet g.labels tag = some l ∧ l.id = x

/-- Every stale label id named by a remaining file has a live witness
group. -/
def StaleWitness (objects : List (String × ImageLabelModel))
    (tag : String) (stale : List String) (rem : List FSFile) : Prop :=
  ∀ f ∈ rem, f.base ∈ stale →
    ∃ k, HasLabelAt objects k tag f.base ∧ imageIdOf f.base = imageIdOf k

/-! ## C5 — refresh() idempotence -/
/-- The concrete filesystem state that breaks idempotence: one image
`a.nii`, and in the `final` tag directory two label files `a.nii` and
`a+1.nii` — both owned by image `a` but with different label ids. -/
def oscState : DatastoreState :=
  { datastore := mkModel [],
    fs := ⟨⟨[⟨"a", ".nii"⟩], []⟩,
           [("final", ⟨[⟨"a", ".nii"⟩, ⟨"a+1", ".nii"⟩], []⟩)]⟩,
    configTs := 0, fileTs := 0, configFile := none,
    ignoreEventCount := 0, ignoreEventConfig := false, autoReload := false,
    now := 0 }

/-- A small healthy state for the C5 witness: image `a.nii`, one `final`
label file `a.nii`, empty starting index, no persisted file yet. -/
def idemState : DatastoreState :=
  { datastore := mkModel [],
    fs := ⟨⟨[⟨"a", ".nii"⟩], []⟩, [("final", ⟨[⟨"a", ".nii"⟩], []⟩)]⟩,
    configTs := 0, fileTs := 0, configFile := none,
    ignoreEventCount := 0, ignoreEventConfig := false, autoReload := false,
    now := 0 }

/-! ## C4 — orphan label files are skipped -/
/-- Some group records a label with the given id. -/
def holdsLabel (objects : List (String × ImageLabelModel)) (x : String) :
    Prop :=
  ∃ kg ∈ objects, ∃ tl ∈ kg.2.labels, tl.2.id = x

/-- The data-model invariant of the spec: a group's recorded image id is
its key, and every label id is the image id, optionally extended with a
`+variant` suffix. -/
def InvShape (objects : List (String × ImageLabelModel)) : Prop :=
  ∀ kg ∈ objects, kg.2.image.id = kg.1 ∧
    ∀ tl ∈ kg.2.labels,
      tl.2.id = kg.2.image.id ∨ ∃ v, tl.2.id = kg.2.image.id ++ "+" ++ v

/-- The mutations reachable through the façade (the Reconciler runs
inside `refresh`, and also inside every non-auto-reload mutation). -/
inductive FacadeOp where
  | addImage (id : String) (src : FSFile)
  | removeImage (id : String)
  | saveLabel (imageId : String) (src : FSFile) (tag : String)
      (info : List (String × JValue)) (labelId : String)
  | removeLabel (labelId : String)
  | removeLabelByTag (tag : String)
  | updateImageInfo (id : String) (info : List (String × JValue))
  | updateLabelInfo (id : String) (info : List (String × JValue))
  | setName (n : String)
  | setDescription (d : String)
  | refreshOp

/-- Apply a façade mutation to the state (a raised not-found exception
leaves the state as the operation returned it: unchanged). -/
def applyOp : FacadeOp → DatastoreState → DatastoreState
  | .addImage id src, s => (add_image s id src).1
  | .removeImage id, s => remove_image s id
  | .saveLabel id src tag info lid, s => (save_label s id src tag info lid).2.1
  | .removeLabel lid, s => remove_label s lid
  | .removeLabelByTag tag, s => remove_label_by_tag s tag
  | .updateImageInfo id info, s => (update_image_info s id info).2
  | .updateLabelInfo id info, s => (update_label_info s id info).2
  | .setName n, s => set_name s n
  | .setDescription d, s => set_description s d
  | .refreshOp, s => refresh s

/-- The invariant at state level: the in-memory Index satisfies the
id-shape invariant, and so does any Index parseable from the persisted
file (which the datastore itself wrote). -/
def InvState (s : DatastoreState) : Prop :=
  InvShape s.datastore.objects ∧
    ∀ m, s.configFile = some (some m) → InvShape m.objects

/-- Every key of the dict is already plus-free (`split("+")[0]` is the
identity on it). -/
def PlusFreeKeys (objects : List (String × ImageLabelModel)) : Prop :=
  ∀ k ∈ keysOf objects, imageIdOf k = k

/-- Every listed file stem of the directory is plus-free. -/
def imagesPlusFree (d : DirState) : Prop :=
  ∀ f ∈ d.files, imageIdOf f.base = f.base

/-- The invariant carried through the label cascade of `remove_image`:
auto-reload off, steady timestamps, the untouched image listing `img0`,
well-formed tag directories, a consistent index with plus-free keys, and
the survival of the group `id` with its original image entry `img`. -/
def CascadeInv (img0 : DirState) (id : String) (img : DataModel)
    (s : DatastoreState) : Prop :=
  s.autoReload = false ∧
  s.configTs = s.fileTs ∧
  s.fs.images = img0 ∧
  TagDirsNodup s.fs ∧
  TagUnique s.fs ∧
  Consistent s.fs s.datastore.objects ∧
  PlusFreeKeys s.datastore.objects ∧
  ∃ g, dictGet s.datastore.objects id = some g ∧ g.image = img

/-- A reconciled, consistent state in which two listed image files share
the stem `x`: the index records `x.nii`, while `x.nii.gz` also sits in
the image root. -/
def dupStemState : DatastoreState :=
  mkState (mkModel [("x", imgEntry "x" ".nii")])
    ⟨⟨[⟨"x", ".nii"⟩, ⟨"x", ".nii.gz"⟩], []⟩, []⟩ false

/-- A healthy one-image, one-label state for the amended C1: image
`a.nii` with a `final` label `a.nii`, index in sync with disk. -/
def cascadeState : DatastoreState :=
  mkState (mkModel
      [("a", ⟨⟨"a", ".nii", []⟩, [("final", ⟨"a", ".nii", []⟩)]⟩)])
    ⟨⟨[⟨"a", ".nii"⟩], []⟩, [("final", ⟨[⟨"a", ".nii"⟩], []⟩)]⟩ false

/-! ## C10 — queries on unknown ids return empty values -/
/-- C10: for every id absent from the Index, `get_image` returns `None`,
`get_image_uri` and `get_label_by_image_id` return the empty string, and
`get_labels_by_image_id` returns an empty mapping — no exception paths
exist in these reads. -/
theorem queries_empty_on_unknown_id (s : DatastoreState) (id tag : String)
    (h : dictGet s.datastore.objects id = none) :
    get_image s id = none ∧ get_image_uri s id = "" ∧
    get_label_by_image_id s id tag = "" ∧
    get_labels_by_image_id s id = [] := by
  refine ⟨?_, ?_, ?_, ?_⟩ <;>
    simp [get_image, get_image_uri, get_label_by_image_id,
      get_labels_by_image_id, h]

/-- Witness for C10 at a concrete one-image datastore and the id `"z"`. -/
theorem queries_empty_on_unknown_id_witness :
    get_image (mkState (mkModel [("a", imgEntry "a" ".nii")]) ⟨⟨[], []⟩, []⟩ false) "z" = none ∧
    get_image_uri (mkState (mkModel [("a", imgEntry "a" ".nii")]) ⟨⟨[], []⟩, []⟩ false) "z" = "" ∧
    get_label_by_image_id (mkState (mkModel [("a", imgEntry "a" ".nii")]) ⟨⟨[], []⟩, []⟩ false) "z" "final" = "" ∧
    get_labels_by_image_id (mkState (mkModel [("a", imgEntry "a" ".nii")]) ⟨⟨[], []⟩, []⟩ false) "z" = [] :=
  queries_empty_on_unknown_id _ "z" "final" rfl

/-! ## C3 — not-found errors are raised and leave the state unchanged -/
/-- C3: `save_label` and `update_image_info` raise
`ImageNotFoundException` when the image id is absent from the Index, and
`update_label_info` raises `LabelNotFoundException` when no label with
the given id exists in any group; in each failure case the state —
in-memory Index, filesystem and persisted file alike — is returned
untouched (the checks precede every mutation). -/
theorem notfound_raised_state_unchanged (s : DatastoreState)
    (id lid label_id tag : String) (src : FSFile)
    (info1 info2 info3 : List (String × JValue)) :
    (dictGet s.datastore.objects id = none →
      save_label s id src tag info1 label_id = (some Exn.imageNotFound, s, "") ∧
      update_image_info s id info2 = (some Exn.imageNotFound, s)) ∧
    ((∀ kg ∈ s.datastore.objects, ∀ tl ∈ kg.2.labels, tl.2.id ≠ lid) →
      update_label_info s lid info3 = (some Exn.labelNotFound, s)) := by
  constructor
  · intro h
    constructor <;> simp [save_label, update_image_info, h]
  · intro h
    match hm : s.datastore.objects with
    | [] => simp [update_label_info, hm]
    | (k, g) :: rest =>
      have hfind : g.labels.find? (fun p => p.2.id == lid) = none := by
        apply List.find?_eq_none.mpr
        intro tl htl
        have := h (k, g) (by rw [hm]; exact List.mem_cons_self _ _) tl htl
        simp [this]
      simp [update_label_info, hm, hfind]

/-- Witness for C3 at a concrete one-image datastore: unknown image id
`"z"`, unknown label id `"w"`. -/
theorem notfound_raised_state_unchanged_witness :
    (save_label (mkState (mkModel [("a", imgEntry "a" ".nii")]) ⟨⟨[], []⟩, []⟩ false) "z" ⟨"l", ".nii"⟩ "final" [] "" =
      (some Exn.imageNotFound, mkState (mkModel [("a", imgEntry "a" ".nii")]) ⟨⟨[], []⟩, []⟩ false, "") ∧
     update_image_info (mkState (mkModel [("a", imgEntry "a" ".nii")]) ⟨⟨[], []⟩, []⟩ false) "z" [] =
      (some Exn.imageNotFound, mkState (mkModel [("a", imgEntry "a" ".nii")]) ⟨⟨[], []⟩, []⟩ false)) ∧
    update_label_info (mkState (mkModel [("a", imgEntry "a" ".nii")]) ⟨⟨[], []⟩, []⟩ false) "w" [] =
      (some Exn.labelNotFound, mkState (mkModel [("a", imgEntry "a" ".nii")]) ⟨⟨[], []⟩, []⟩ false) := by
  have h := notfound_raised_state_unchanged
    (mkState (mkModel [("a", imgEntry "a" ".nii")]) ⟨⟨[], []⟩, []⟩ false)
    "z" "w" "" "final" ⟨"l", ".nii"⟩ [] [] []
  exact ⟨h.1 rfl, h.2 (by decide)⟩

/-! ## C8 — reload guard, wholesale replacement, parse-failure policy -/
/-- C8: on a reload from the persisted file, (1) when the file's mtime
equals the last-seen timestamp the parse is skipped and the state is
unchanged in both the throwing (construction-time) and non-throwing
modes; (2) when the mtime differs and the file parses, the in-memory
Index is wholesale-replaced by the parsed document and the timestamp
recorded; (3) when the mtime differs and the parse fails, the error is
propagated in the throwing mode used at construction but in the
non-throwing background mode the stale state is kept unchanged. -/
theorem init_from_datastore_file_policy (s : DatastoreState)
    (m : LocalDatastoreModel) :
    (s.fileTs = s.configTs →
      initFromFileT true s = some s ∧ initFromFileT false s = some s) ∧
    (s.configFile = some (some m) → s.fileTs ≠ s.configTs →
      initFromFileT true s = some { s with datastore := m, configTs := s.fileTs } ∧
      initFromFileT false s = some { s with datastore := m, configTs := s.fileTs }) ∧
    (s.configFile = some none → s.fileTs ≠ s.configTs →
      initFromFileT true s = none ∧ initFromFileT false s = some s) := by
  refine ⟨?_, ?_, ?_⟩
  · intro h
    constructor <;> (cases hc : s.configFile <;> simp [initFromFileT, hc, h])
  · intro hc h
    have hne : (s.configTs == s.fileTs) = false := by
      simp [beq_iff_eq]; exact fun he => h (he.symm)
    constructor <;> simp [initFromFileT, hc, hne]
  · intro hc h
    have hne : (s.configTs == s.fileTs) = false := by
      simp [beq_iff_eq]; exact fun he => h (he.symm)
    constructor <;> simp [initFromFileT, hc, hne]

/-- Witness for C8: a state whose timestamps agree (skip), one with a
changed timestamp and a parsable file (replace), and one with a changed
timestamp and a malformed file (throw at construction, keep stale
afterwards). -/
theorem init_from_datastore_file_policy_witness :
    (initFromFileT true (mkState (mkModel []) ⟨⟨[], []⟩, []⟩ false) =
      some (mkState (mkModel []) ⟨⟨[], []⟩, []⟩ false)) ∧
    (initFromFileT false { mkState (mkModel []) ⟨⟨[], []⟩, []⟩ false with fileTs := 6 } =
      some { mkState (mkModel []) ⟨⟨[], []⟩, []⟩ false with
        fileTs := 6, datastore := { mkModel [] with base_path := "" }, configTs := 6 }) ∧
    (initFromFileT true { mkState (mkModel []) ⟨⟨[], []⟩, []⟩ false with
        fileTs := 6, configFile := some none } = none) := by
  refine ⟨?_, ?_, ?_⟩
  · exact ((init_from_datastore_file_policy
      (mkState (mkModel []) ⟨⟨[], []⟩, []⟩ false) (mkModel [])).1 rfl).1
  · exact (((init_from_datastore_file_policy
      { mkState (mkModel []) ⟨⟨[], []⟩, []⟩ false with fileTs := 6 }
      { mkModel [] with base_path := "" }).2.1 rfl (by decide)).2)
  · exact (((init_from_datastore_file_policy
      { mkState (mkModel []) ⟨⟨[], []⟩, []⟩ false with
        fileTs := 6, configFile := some none }
      (mkModel [])).2.2 rfl (by decide)).1)

/-- C2, evaluated at the failing input: saving a label for image `"b"` of
a two-image datastore returns the label id `"b"` and
`get_label_by_image_id` sees it, but `get_label_info "b"` is the empty
dict — the seeded `"ts"` key is not visible, because the datastore-wide
label lookup only inspects the first group (`filter_by_id` keeps every
object since a Python 2-tuple is always truthy). -/
theorem save_label_get_label_info_empty :
    (save_label twoImageState "b" ⟨"lbl", ".nii"⟩ "final" [] "").1 = none ∧
    (save_label twoImageState "b" ⟨"lbl", ".nii"⟩ "final" [] "").2.2 = "b" ∧
    get_label_by_image_id twoImageStateSaved "b" "final" = "b" ∧
    get_label_info twoImageStateSaved "b" = [] ∧
    dictGet (get_label_info twoImageStateSaved "b") "ts" = none :=
  ⟨rfl, rfl, rfl, rfl, rfl⟩

/-! ## C7 — the watcher's create/delete suppression counter is never armed
(code bug)

`_ignore_event_count` is initialised to `0` and decremented in
`_on_any_event`, but no operation in the repository ever increments it:
the datastore-initiated file creates/deletes are *not* suppressed, and a
watcher event arriving right after `save_label` triggers a full
`refresh`. -/
/-- `_update_datastore_file` does not change the create/delete
suppression counter. -/
theorem ignoreCount_updateDatastoreFile (s : DatastoreState) :
    (updateDatastoreFile s).ignoreEventCount = s.ignoreEventCount := rfl

/-- `_init_from_datastore_file` does not change the counter. -/
theorem ignoreCount_initFromFile (s : DatastoreState) :
    (initFromFile s).ignoreEventCount = s.ignoreEventCount := by
  unfold initFromFile initFromFileT
  cases s.configFile with
  | none => rfl
  | some parsed =>
    cases parsed <;> simp <;> split <;> simp

/-- `_reconcile_datastore` does not change the counter. -/
theorem ignoreCount_reconcileDatastore (s : DatastoreState) :
    (reconcileDatastore s).1.ignoreEventCount = s.ignoreEventCount := by
  unfold reconcileDatastore
  split <;> rfl

/-- `refresh` does not change the counter. -/
theorem ignoreCount_refresh (s : DatastoreState) :
    (refresh s).ignoreEventCount = s.ignoreEventCount := by
  rw [refresh, refreshC, ignoreCount_reconcileDatastore, ignoreCount_initFromFile]

/-- The file-deletion step of `remove_label` does not change the
counter. -/
theorem ignoreCount_remove_label_delete (s : DatastoreState) (lid : String) :
    (remove_label_delete s lid).ignoreEventCount = s.ignoreEventCount := by
  unfold remove_label_delete
  split
  · split <;> rfl
  · rfl

/-- `remove_label` does not change the counter. -/
theorem ignoreCount_remove_label (s : DatastoreState) (lid : String) :
    (remove_label s lid).ignoreEventCount = s.ignoreEventCount := by
  unfold remove_label
  split
  · exact ignoreCount_remove_label_delete s lid
  · rw [ignoreCount_refresh, ignoreCount_remove_label_delete]

/-- Folding `remove_label` over a list of ids does not change the
counter. -/
theorem ignoreCount_foldl_remove_label (lids : List String)
    (s : DatastoreState) :
    (lids.foldl (fun acc lid => remove_label acc lid) s).ignoreEventCount =
      s.ignoreEventCount := by
  induction lids generalizing s with
  | nil => rfl
  | cons lid rest ih => rw [List.foldl_cons, ih, ignoreCount_remove_label]

/-- The label cascade of `remove_image` does not change the counter. -/
theorem ignoreCount_remove_image_labels (s : DatastoreState) (id : String) :
    (remove_image_labels s id).ignoreEventCount = s.ignoreEventCount :=
  ignoreCount_foldl_remove_label _ s

/-- The image-file deletion step does not change the counter. -/
theorem ignoreCount_remove_image_file (s : DatastoreState) (id : String) :
    (remove_image_file s id).ignoreEventCount = s.ignoreEventCount := by
  unfold remove_image_file
  split
  · split <;> rfl
  · rfl

/-- C7, evaluated on the code: no façade mutation changes
`_ignore_event_count` (there is no increment anywhere), and a
create/delete event delivered while the counter is `0` — as it always is —
triggers `refresh()` instead of being consumed. -/
theorem ignore_event_count_never_armed (s : DatastoreState)
    (id lid tag : String) (src : FSFile) (info : List (String × JValue)) :
    (add_image s id src).1.ignoreEventCount = s.ignoreEventCount ∧
    (save_label s id src tag info lid).2.1.ignoreEventCount = s.ignoreEventCount ∧
    (remove_label s lid).ignoreEventCount = s.ignoreEventCount ∧
    (remove_image s id).ignoreEventCount = s.ignoreEventCount ∧
    (s.ignoreEventCount = 0 → (onAnyEvent s).2 = true) := by
  refine ⟨?_, ?_, ignoreCount_remove_label s lid, ?_, ?_⟩
  · unfold add_image
    split
    · rfl
    · rw [ignoreCount_refresh]; rfl
  · unfold save_label
    split
    · rfl
    · rfl
  · unfold remove_image
    split
    · rw [ignoreCount_remove_image_file, ignoreCount_remove_image_labels]
    · rw [ignoreCount_refresh, ignoreCount_remove_image_file,
        ignoreCount_remove_image_labels]
  · intro h
    unfold onAnyEvent
    simp [h]

/-- Witness for C7: on a steady auto-reload datastore with one image,
after `save_label` the counter is still `0` and the very next watcher
create event triggers a refresh rather than being consumed. -/
theorem ignore_event_count_never_armed_witness :
    ((save_label (mkState (mkModel [("a", imgEntry "a" ".nii")]) ⟨⟨[⟨"a", ".nii"⟩], []⟩, [("final", ⟨[], []⟩)]⟩ true) "a" ⟨"l", ".nii"⟩ "final" [] "").2.1.ignoreEventCount =
      (mkState (mkModel [("a", imgEntry "a" ".nii")]) ⟨⟨[⟨"a", ".nii"⟩], []⟩, [("final", ⟨[], []⟩)]⟩ true).ignoreEventCount) ∧
    ((mkState (mkModel [("a", imgEntry "a" ".nii")]) ⟨⟨[⟨"a", ".nii"⟩], []⟩, [("final", ⟨[], []⟩)]⟩ true).ignoreEventCount = 0 →
      (onAnyEvent (mkState (mkModel [("a", imgEntry "a" ".nii")]) ⟨⟨[⟨"a", ".nii"⟩], []⟩, [("final", ⟨[], []⟩)]⟩ true)).2 = true) :=
  ⟨(ignore_event_count_never_armed _ "a" "" "final" ⟨"l", ".nii"⟩ []).2.1,
   (ignore_event_count_never_armed _ "a" "" "final" ⟨"l", ".nii"⟩ []).2.2.2.2⟩

/-- Parsing back a serialized `DataModel` is the identity. -/
theorem dataModel_parse_toJson (d : DataModel) :
    DataModel.parse d.toJson = some d := rfl

/-- Parsing back serialized labels is the identity. -/
theorem parseLabels_map_toJson (labels : List (String × DataModel)) :
    parseLabels (labels.map (fun tl => (tl.1, tl.2.toJson))) = some labels := by
  induction labels with
  | nil => rfl
  | cons tl rest ih =>
    show (match parseLabels (rest.map (fun tl => (tl.1, tl.2.toJson))) with
          | none => none
          | some ls => some ((tl.1, tl.2) :: ls)) = some (tl :: rest)
    rw [ih]

/-- Parsing back a serialized `ImageLabelModel` is the identity. -/
theorem imageLabelModel_parse_toJson (o : ImageLabelModel) :
    ImageLabelModel.parse o.toJson = some o := by
  show (match parseLabels (o.labels.map (fun tl => (tl.1, tl.2.toJson))) with
        | none => none
        | some labels => some ⟨o.image, labels⟩) = some o
  rw [parseLabels_map_toJson]

/-- Parsing back serialized objects is the identity. -/
theorem parseObjects_map_toJson (objects : List (String × ImageLabelModel)) :
    parseObjects (objects.map (fun kg => (kg.1, kg.2.toJson))) = some objects := by
  induction objects with
  | nil => rfl
  | cons kg rest ih =>
    show (match ImageLabelModel.parse kg.2.toJson with
          | none => none
          | some o =>
            match parseObjects (rest.map (fun kg => (kg.1, kg.2.toJson))) with
            | none => none
            | some os => some ((kg.1, o) :: os)) = some (kg :: rest)
    rw [imageLabelModel_parse_toJson, ih]

/-- C6: writing the Index through the persistence layer (the full
document minus `base_path`) and parsing the written file yields an Index
equal to the original in every field — `name`, `description`,
`images_dir`, `labels_dir` and `objects` — except `base_path`, which is
excluded from the document and comes back as the pydantic default. -/
theorem datastore_file_roundtrip (m : LocalDatastoreModel) :
    LocalDatastoreModel.parse m.toJsonNoBase = some { m with base_path := "" } := by
  show (match parseObjects (m.objects.map (fun kg => (kg.1, kg.2.toJson))) with
        | none => (none : Option LocalDatastoreModel)
        | some objects =>
          some (⟨m.name, m.description, m.images_dir, m.labels_dir, objects,
            ""⟩ : LocalDatastoreModel)) =
    some { m with base_path := "" }
  rw [parseObjects_map_toJson]

/-! ## Dictionary lemmas -/
theorem dictGet_mem {α : Type} {d : List (String × α)} {k : String} {v : α}
    (h : dictGet d k = some v) : (k, v) ∈ d := by
  induction d with
  | nil => simp [dictGet] at h
  | cons kv rest ih =>
    obtain ⟨k', v'⟩ := kv
    by_cases hk : k' = k
    · subst hk
      rw [dictGet, if_pos (by simp)] at h
      injection h with h
      subst h
      exact List.mem_cons_self _ _
    · rw [dictGet, if_neg (by simpa using hk)] at h
      exact List.mem_cons_of_mem _ (ih h)

theorem mem_keysOf {α : Type} {d : List (String × α)} {k : String} :
    k ∈ keysOf d ↔ ∃ v, (k, v) ∈ d := by
  unfold keysOf
  constructor
  · intro h
    rcases List.mem_map.mp h with ⟨⟨k', v⟩, hm, he⟩
    have he' : k' = k := by simpa using he
    exact ⟨v, he' ▸ hm⟩
  · rintro ⟨v, hv⟩
    exact List.mem_map.mpr ⟨(k, v), hv, rfl⟩

theorem dictGet_isSome_of_mem_keys {α : Type} {d : List (String × α)}
    {k : String} (h : k ∈ keysOf d) : (dictGet d k).isSome := by
  induction d with
  | nil => simp [keysOf] at h
  | cons kv rest ih =>
    obtain ⟨k', v'⟩ := kv
    by_cases hk : k' = k
    · rw [dictGet, if_pos (by simpa using hk)]
      rfl
    · rw [dictGet, if_neg (by simpa using hk)]
      apply ih
      simp only [keysOf, List.map_cons, List.mem_cons] at h
      rcases h with h | h
      · exact absurd h.symm hk
      · exact h

theorem mem_keys_of_dictGet {α : Type} {d : List (String × α)} {k : String}
    {v : α} (h : dictGet d k = some v) : k ∈ keysOf d :=
  mem_keysOf.mpr ⟨v, dictGet_mem h⟩

theorem dictGet_none_of_not_mem_keys {α : Type} {d : List (String × α)}
    {k : String} (h : k ∉ keysOf d) : dictGet d k = none := by
  cases hg : dictGet d k with
  | none => rfl
  | some v => exact absurd (mem_keys_of_dictGet hg) h

theorem dictGet_dictSet_self {α : Type} (d : List (String × α)) (k : String)
    (v : α) : dictGet (dictSet d k v) k = some v := by
  induction d with
  | nil => simp [dictSet, dictGet]
  | cons kv rest ih =>
    obtain ⟨k', v'⟩ := kv
    by_cases hk : k' = k
    · rw [dictSet, if_pos (by simpa using hk), dictGet, if_pos (by simp)]
    · rw [dictSet, if_neg (by simpa using hk), dictGet,
        if_neg (by simpa using hk)]
      exact ih

theorem dictGet_dictSet_ne {α : Type} (d : List (String × α)) (k a : String)
    (v : α) (h : a ≠ k) : dictGet (dictSet d k v) a = dictGet d a := by
  have hne : (k == a) = false := beq_eq_false_iff_ne.mpr (Ne.symm h)
  induction d with
  | nil => simp [dictSet, dictGet, hne]
  | cons kv rest ih =>
    obtain ⟨k', v'⟩ := kv
    by_cases hk : k' = k
    · subst hk
      rw [dictSet, if_pos (by simp), dictGet, dictGet, hne, if_neg (by simp),
        if_neg (by simp [show (k' == a) = false from hne])]
    · rw [dictSet, if_neg (by simpa using hk), dictGet, dictGet]
      by_cases hk' : (k' == a) = true
      · rw [if_pos hk', if_pos hk']
      · rw [if_neg hk', if_neg hk']
        exact ih

theorem mem_dictSet {α : Type} {d : List (String × α)} {k : String} {v : α}
    {x : String × α} (h : x ∈ dictSet d k v) : x ∈ d ∨ x = (k, v) := by
  induction d with
  | nil =>
    right
    simpa [dictSet] using h
  | cons kv rest ih =>
    obtain ⟨k', v'⟩ := kv
    by_cases hk : k' = k
    · rw [dictSet, if_pos (by simpa using hk)] at h
      rcases List.mem_cons.mp h with h1 | h1
      · right; exact h1
      · left; exact List.mem_cons_of_mem _ h1
    · rw [dictSet, if_neg (by simpa using hk)] at h
      rcases List.mem_cons.mp h with h1 | h1
      · left; rw [h1]; exact List.mem_cons_self _ _
      · rcases ih h1 with h2 | h2
        · left; exact List.mem_cons_of_mem _ h2
        · right; exact h2

theorem keysOf_dictSet_of_mem {α : Type} {d : List (String × α)} {k : String}
    (v : α) (h : k ∈ keysOf d) : keysOf (dictSet d k v) = keysOf d := by
  induction d with
  | nil => simp [keysOf] at h
  | cons kv rest ih =>
    obtain ⟨k', v'⟩ := kv
    by_cases hk : k' = k
    · rw [dictSet, if_pos (by simpa using hk)]
      simp [keysOf, hk]
    · rw [dictSet, if_neg (by simpa using hk)]
      have hmem : k ∈ keysOf rest := by
        simp only [keysOf, List.map_cons, List.mem_cons] at h
        rcases h with h | h
        · exact absurd h.symm hk
        · exact h
      simp only [keysOf, List.map_cons]
      exact congrArg (k' :: ·) (ih hmem)

theorem keysOf_dictSet_of_not_mem {α : Type} {d : List (String × α)}
    {k : String} (v : α) (h : k ∉ keysOf d) :
    keysOf (dictSet d k v) = keysOf d ++ [k] := by
  induction d with
  | nil => simp [keysOf, dictSet]
  | cons kv rest ih =>
    obtain ⟨k', v'⟩ := kv
    by_cases hk : k' = k
    · exfalso
      apply h
      simp [keysOf, hk]
    · rw [dictSet, if_neg (by simpa using hk)]
      have hmem : k ∉ keysOf rest := by
        intro hm
        apply h
        simp only [keysOf, List.map_cons, List.mem_cons]
        right
        exact hm
      simp only [keysOf, List.map_cons, List.cons_append]
      exact congrArg (k' :: ·) (ih hmem)

theorem nodupKeys_dictSet {α : Type} {d : List (String × α)} {k : String}
    (v : α) (h : (keysOf d).Nodup) : (keysOf (dictSet d k v)).Nodup := by
  by_cases hm : k ∈ keysOf d
  · rwa [keysOf_dictSet_of_mem v hm]
  · rw [keysOf_dictSet_of_not_mem v hm]
    apply List.Nodup.append h (List.nodup_singleton k)
    intro a ha hb
    rw [List.mem_singleton] at hb
    exact hm (hb ▸ ha)

theorem contains_iff_mem {l : List String} {a : String} :
    l.contains a = true ↔ a ∈ l := by
  show l.elem a = true ↔ a ∈ l
  exact List.elem_iff

theorem nodupKeys_cons {α : Type} {x : String × α} {rest : List (String × α)}
    (h : NodupKeys (x :: rest)) : x.1 ∉ keysOf rest ∧ NodupKeys rest := by
  simpa [NodupKeys, keysOf, List.nodup_cons] using h

theorem dictGet_of_mem_nodup {α : Type} {d : List (String × α)} {k : String}
    {v : α} (hnd : NodupKeys d) (h : (k, v) ∈ d) : dictGet d k = some v := by
  induction d with
  | nil => simp at h
  | cons x rest ih =>
    obtain ⟨k', v'⟩ := x
    rcases List.mem_cons.mp h with h1 | h1
    · injection h1 with e1 e2
      rw [dictGet, if_pos (by simp [e1]), e2]
    · by_cases hk : k' = k
      · exfalso
        have hkr : k ∈ keysOf rest := mem_keysOf.mpr ⟨v, h1⟩
        exact (nodupKeys_cons hnd).1 (hk ▸ hkr)
      · rw [dictGet, if_neg (by simpa using hk)]
        exact ih (nodupKeys_cons hnd).2 h1

/-! ## String lemmas about `imageIdOf` -/
theorem takeWhile_idem {p : Char → Bool} (l : List Char) :
    (l.takeWhile p).takeWhile p = l.takeWhile p := by
  induction l with
  | nil => rfl
  | cons c rest ih =>
    by_cases hc : p c
    · rw [List.takeWhile_cons, if_pos hc, List.takeWhile_cons, if_pos hc, ih]
    · rw [List.takeWhile_cons, if_neg hc]
      rfl

theorem imageIdOf_idem (s : String) :
    imageIdOf (imageIdOf s) = imageIdOf s := by
  unfold imageIdOf
  exact congrArg String.mk (takeWhile_idem s.data)

/-- If a string is in the image of `imageIdOf` then it is its own inferred
image id. -/
theorem imageIdOf_self_of_eq {s k : String} (h : imageIdOf s = k) :
    imageIdOf k = k := by
  rw [← h, imageIdOf_idem]

/-! ## Pass 1 (`_remove_non_existing`) lemmas -/
theorem pruneLabels_mem {fs : FileSystem} {ls : List (String × DataModel)}
    {tl : String × DataModel} (h : tl ∈ (pruneLabels fs ls).1) :
    tl ∈ ls ∧ fs.hasLabel tl.1 tl.2.path = true := by
  induction ls with
  | nil => simp [pruneLabels] at h
  | cons x rest ih =>
    obtain ⟨tag, l⟩ := x
    by_cases hc : fs.hasLabel tag l.path
    · simp only [pruneLabels, hc, if_true] at h
      rcases List.mem_cons.mp h with h1 | h1
      · subst h1
        exact ⟨List.mem_cons_self _ _, hc⟩
      · rcases ih h1 with ⟨hm, ho⟩
        exact ⟨List.mem_cons_of_mem _ hm, ho⟩
    · simp only [pruneLabels, hc, if_false] at h
      rcases ih h with ⟨hm, ho⟩
      exact ⟨List.mem_cons_of_mem _ hm, ho⟩

theorem pruneLabels_id {fs : FileSystem} {ls : List (String × DataModel)}
    (h : ∀ tl ∈ ls, fs.hasLabel tl.1 tl.2.path = true) :
    pruneLabels fs ls = (ls, 0) := by
  induction ls with
  | nil => rfl
  | cons x rest ih =>
    obtain ⟨tag, l⟩ := x
    have hc : fs.hasLabel tag l.path = true := h (tag, l) (List.mem_cons_self _ _)
    have hr : pruneLabels fs rest = (rest, 0) :=
      ih (fun tl htl => h tl (List.mem_cons_of_mem _ htl))
    simp [pruneLabels, hc, hr]

theorem pruneLabels_of_zero {fs : FileSystem} {ls : List (String × DataModel)}
    (h : (pruneLabels fs ls).2 = 0) : (pruneLabels fs ls).1 = ls := by
  induction ls with
  | nil => rfl
  | cons x rest ih =>
    obtain ⟨tag, l⟩ := x
    by_cases hc : fs.hasLabel tag l.path
    · simp only [pruneLabels, hc, if_true] at h ⊢
      rw [ih h]
    · simp [pruneLabels, hc] at h

theorem removeNonExisting_mem {fs : FileSystem}
    {objects : List (String × ImageLabelModel)} {kg : String × ImageLabelModel}
    (h : kg ∈ (removeNonExisting fs objects).1) :
    ∃ g, (kg.1, g) ∈ objects ∧ kg.2.image = g.image ∧
      fs.hasImage g.image.path = true ∧
      ∀ tl ∈ kg.2.labels, tl ∈ g.labels ∧ fs.hasLabel tl.1 tl.2.path = true := by
  induction objects with
  | nil => simp [removeNonExisting] at h
  | cons x rest ih =>
    obtain ⟨k, g⟩ := x
    by_cases hc : fs.hasImage g.image.path
    · simp only [removeNonExisting, hc, if_true] at h
      rcases List.mem_cons.mp h with h1 | h1
      · refine ⟨g, ?_, ?_, hc, ?_⟩
        · rw [h1]; exact List.mem_cons_self _ _
        · rw [h1]
        · intro tl htl
          rw [h1] at htl
          exact pruneLabels_mem htl
      · rcases ih h1 with ⟨g', hm, hi, himg, hl⟩
        exact ⟨g', List.mem_cons_of_mem _ hm, hi, himg, hl⟩
    · simp only [removeNonExisting, hc, if_false] at h
      rcases ih h with ⟨g', hm, hi, himg, hl⟩
      exact ⟨g', List.mem_cons_of_mem _ hm, hi, himg, hl⟩

/-- Pass 1 establishes `ImgOK` and `LblOK`. -/
theorem removeNonExisting_ok (fs : FileSystem)
    (objects : List (String × ImageLabelModel)) :
    ImgOK fs (removeNonExisting fs objects).1 ∧
      LblOK fs (removeNonExisting fs objects).1 := by
  constructor
  · intro kg hkg
    rcases removeNonExisting_mem hkg with ⟨g, _, hi, himg, _⟩
    rw [hi]
    exact himg
  · intro kg hkg tl htl
    rcases removeNonExisting_mem hkg with ⟨g, _, _, _, hl⟩
    exact (hl tl htl).2

/-- Pass 1 is the identity (with a zero count) on consistent stores. -/
theorem removeNonExisting_id {fs : FileSystem}
    {objects : List (String × ImageLabelModel)} (h1 : ImgOK fs objects)
    (h2 : LblOK fs objects) : removeNonExisting fs objects = (objects, 0) := by
  induction objects with
  | nil => rfl
  | cons x rest ih =>
    obtain ⟨k, g⟩ := x
    have hc : fs.hasImage g.image.path = true := h1 (k, g) (List.mem_cons_self _ _)
    have hp : pruneLabels fs g.labels = (g.labels, 0) :=
      pruneLabels_id (fun tl htl => h2 (k, g) (List.mem_cons_self _ _) tl htl)
    have hr : removeNonExisting fs rest = (rest, 0) :=
      ih (fun kg hkg => h1 kg (List.mem_cons_of_mem _ hkg))
        (fun kg hkg => h2 kg (List.mem_cons_of_mem _ hkg))
    simp [removeNonExisting, hc, hp, hr]

/-- A zero count from pass 1 means it changed nothing. -/
theorem removeNonExisting_of_zero {fs : FileSystem}
    {objects : List (String × ImageLabelModel)}
    (h : (removeNonExisting fs objects).2 = 0) :
    (removeNonExisting fs objects).1 = objects := by
  induction objects with
  | nil => rfl
  | cons x rest ih =>
    obtain ⟨k, g⟩ := x
    by_cases hc : fs.hasImage g.image.path
    · simp only [removeNonExisting, hc, if_true] at h ⊢
      have hrest : (removeNonExisting fs rest).2 = 0 := by omega
      have hlab : (pruneLabels fs g.labels).2 = 0 := by omega
      rw [ih hrest, pruneLabels_of_zero hlab]
    · simp [removeNonExisting, hc] at h

theorem removeNonExisting_keys_sublist (fs : FileSystem)
    (objects : List (String × ImageLabelModel)) :
    List.Sublist (keysOf (removeNonExisting fs objects).1) (keysOf objects) := by
  induction objects with
  | nil => simp [removeNonExisting]
  | cons x rest ih =>
    obtain ⟨k, g⟩ := x
    by_cases hc : fs.hasImage g.image.path
    · simp only [removeNonExisting, hc, if_true, keysOf, List.map_cons]
      exact List.Sublist.cons₂ k ih
    · simp only [removeNonExisting, hc, if_false, keysOf, List.map_cons]
      exact List.Sublist.cons k ih

theorem removeNonExisting_nodup {fs : FileSystem}
    {objects : List (String × ImageLabelModel)} (h : NodupKeys objects) :
    NodupKeys (removeNonExisting fs objects).1 :=
  (removeNonExisting_keys_sublist fs objects).nodup h

theorem removeNonExisting_invIds {fs : FileSystem}
    {objects : List (String × ImageLabelModel)} (h : InvIds objects) :
    InvIds (removeNonExisting fs objects).1 := by
  intro kg hkg tl htl
  rcases removeNonExisting_mem hkg with ⟨g, hm, _, _, hl⟩
  exact h (kg.1, g) hm tl (hl tl htl).1

/-- Pass 1 keeps (pruning only labels) every group whose image file
exists. -/
theorem removeNonExisting_get {fs : FileSystem}
    {objects : List (String × ImageLabelModel)} {k : String}
    {g : ImageLabelModel} (hg : dictGet objects k = some g)
    (himg : fs.hasImage g.image.path = true) :
    dictGet (removeNonExisting fs objects).1 k =
      some ⟨g.image, (pruneLabels fs g.labels).1⟩ := by
  induction objects with
  | nil => simp [dictGet] at hg
  | cons x rest ih =>
    obtain ⟨k', g'⟩ := x
    by_cases hk : k' = k
    · subst hk
      rw [dictGet, if_pos (by simp)] at hg
      injection hg with hg
      subst hg
      simp only [removeNonExisting, himg, if_true]
      rw [dictGet, if_pos (by simp)]
    · rw [dictGet, if_neg (by simpa using hk)] at hg
      by_cases hc : fs.hasImage g'.image.path
      · simp only [removeNonExisting, hc, if_true]
        rw [dictGet, if_neg (by simpa using hk)]
        exact ih hg
      · simp only [removeNonExisting, hc, if_false]
        exact ih hg

/-- Pass 1 drops a group whose image file is missing (given unique
keys). -/
theorem removeNonExisting_drop {fs : FileSystem}
    {objects : List (String × ImageLabelModel)} {k : String}
    {g : ImageLabelModel} (hnd : NodupKeys objects)
    (hg : dictGet objects k = some g)
    (himg : fs.hasImage g.image.path = false) :
    k ∉ keysOf (removeNonExisting fs objects).1 := by
  intro hmem
  rcases mem_keysOf.mp hmem with ⟨g1, hg1⟩
  rcases removeNonExisting_mem hg1 with ⟨g2, hm2, _, himg2, _⟩
  have hget : dictGet objects k = some g2 := dictGet_of_mem_nodup hnd hm2
  rw [hg] at hget
  injection hget with e
  rw [e] at himg
  rw [himg] at himg2
  simp at himg2

/-! ## Pass 2 (`_add_non_existing_images`) lemmas -/
theorem hasName_of_mem {d : DirState} {f : FSFile} (h : f ∈ d.files) :
    d.hasName f.name = true := by
  unfold DirState.hasName
  apply Bool.or_eq_true_iff.mpr
  left
  exact List.any_eq_true.mpr ⟨f, h, by simp⟩

theorem hasImage_of_mem {fs : FileSystem} {f : FSFile}
    (h : f ∈ fs.images.files) : fs.hasImage f.name = true :=
  hasName_of_mem h

theorem addImagesLoop_keys_mono {stale : List String} {files : List FSFile}
    {objects : List (String × ImageLabelModel)} {k : String}
    (h : k ∈ keysOf objects) :
    k ∈ keysOf (addImagesLoop stale files objects).1 := by
  induction files generalizing objects with
  | nil => exact h
  | cons f rest ih =>
    by_cases hf : f.base ∈ stale
    · simp only [addImagesLoop, hf, if_true]
      exact ih h
    · simp only [addImagesLoop, hf, if_false]
      apply ih
      by_cases hm : f.base ∈ keysOf objects
      · rwa [keysOf_dictSet_of_mem _ hm]
      · rw [keysOf_dictSet_of_not_mem _ hm]
        exact List.mem_append_left _ h

theorem addImagesLoop_covers {stale : List String} {files : List FSFile}
    {objects : List (String × ImageLabelModel)}
    (hsub : ∀ k ∈ stale, k ∈ keysOf objects) :
    ∀ f ∈ files, f.base ∈ keysOf (addImagesLoop stale files objects).1 := by
  induction files generalizing objects with
  | nil => simp
  | cons f rest ih =>
    intro f' hf'
    by_cases hf : f.base ∈ stale
    · simp only [addImagesLoop, hf, if_true]
      rcases List.mem_cons.mp hf' with h1 | h1
      · subst h1
        exact addImagesLoop_keys_mono (hsub _ hf)
      · exact ih hsub f' h1
    · simp only [addImagesLoop, hf, if_false]
      rcases List.mem_cons.mp hf' with h1 | h1
      · subst h1
        exact addImagesLoop_keys_mono
          (mem_keys_of_dictGet (dictGet_dictSet_self _ _ _))
      · refine ih ?_ f' h1
        intro k hk
        by_cases hm : f.base ∈ keysOf objects
        · rw [keysOf_dictSet_of_mem _ hm]
          exact hsub k hk
        · rw [keysOf_dictSet_of_not_mem _ hm]
          exact List.mem_append_left _ (hsub k hk)

theorem addImagesLoop_id {stale : List String} {files : List FSFile}
    {objects : List (String × ImageLabelModel)}
    (h : ∀ f ∈ files, f.base ∈ stale) :
    addImagesLoop stale files objects = (objects, 0) := by
  induction files with
  | nil => rfl
  | cons f rest ih =>
    have hf : f.base ∈ stale := h f (List.mem_cons_self _ _)
    simp only [addImagesLoop, hf, if_true]
    exact ih (fun f' hf' => h f' (List.mem_cons_of_mem _ hf'))

theorem addImagesLoop_of_zero {stale : List String} {files : List FSFile}
    {objects : List (String × ImageLabelModel)}
    (h : (addImagesLoop stale files objects).2 = 0) :
    (addImagesLoop stale files objects).1 = objects := by
  induction files generalizing objects with
  | nil => rfl
  | cons f rest ih =>
    by_cases hf : f.base ∈ stale
    · simp only [addImagesLoop, hf, if_true] at h ⊢
      exact ih h
    · simp [addImagesLoop, hf] at h

theorem addImagesLoop_get_stale {stale : List String} {files : List FSFile}
    {objects : List (String × ImageLabelModel)} {k : String}
    (hk : k ∈ stale) :
    dictGet (addImagesLoop stale files objects).1 k = dictGet objects k := by
  induction files generalizing objects with
  | nil => rfl
  | cons f rest ih =>
    by_cases hf : f.base ∈ stale
    · simp only [addImagesLoop, hf, if_true]
      exact ih
    · simp only [addImagesLoop, hf, if_false]
      rw [ih, dictGet_dictSet_ne]
      intro he
      exact hf (he ▸ hk)

theorem addImagesLoop_mem {stale : List String} {files : List FSFile}
    {objects : List (String × ImageLabelModel)}
    {kg : String × ImageLabelModel}
    (h : kg ∈ (addImagesLoop stale files objects).1) :
    kg ∈ objects ∨ ∃ f ∈ files, kg = (f.base, ⟨⟨f.base, f.ext, []⟩, []⟩) := by
  induction files generalizing objects with
  | nil => left; exact h
  | cons f rest ih =>
    by_cases hf : f.base ∈ stale
    · simp only [addImagesLoop, hf, if_true] at h
      rcases ih h with h1 | ⟨f', hf', he⟩
      · left; exact h1
      · right; exact ⟨f', List.mem_cons_of_mem _ hf', he⟩
    · simp only [addImagesLoop, hf, if_false] at h
      rcases ih h with h1 | ⟨f', hf', he⟩
      · rcases mem_dictSet h1 with h2 | h2
        · left; exact h2
        · right; exact ⟨f, List.mem_cons_self _ _, h2⟩
      · right; exact ⟨f', List.mem_cons_of_mem _ hf', he⟩

theorem addImagesLoop_nodup {stale : List String} {files : List FSFile}
    {objects : List (String × ImageLabelModel)} (h : NodupKeys objects) :
    NodupKeys (addImagesLoop stale files objects).1 := by
  induction files generalizing objects with
  | nil => exact h
  | cons f rest ih =>
    by_cases hf : f.base ∈ stale
    · simp only [addImagesLoop, hf, if_true]
      exact ih h
    · simp only [addImagesLoop, hf, if_false]
      exact ih (nodupKeys_dictSet _ h)

theorem addImagesLoop_invIds {stale : List String} {files : List FSFile}
    {objects : List (String × ImageLabelModel)} (h : InvIds objects) :
    InvIds (addImagesLoop stale files objects).1 := by
  intro kg hkg tl htl
  rcases addImagesLoop_mem hkg with h1 | ⟨f, _, he⟩
  · exact h kg h1 tl htl
  · rw [he] at htl
    simp at htl

theorem addImagesLoop_imgOK {fs : FileSystem} {stale : List String}
    {files : List FSFile} {objects : List (String × ImageLabelModel)}
    (h : ImgOK fs objects) (hf : ∀ f ∈ files, fs.hasImage f.name = true) :
    ImgOK fs (addImagesLoop stale files objects).1 := by
  intro kg hkg
  rcases addImagesLoop_mem hkg with h1 | ⟨f, hfm, he⟩
  · exact h kg h1
  · rw [he]
    exact hf f hfm

theorem addImagesLoop_lblOK {fs : FileSystem} {stale : List String}
    {files : List FSFile} {objects : List (String × ImageLabelModel)}
    (h : LblOK fs objects) :
    LblOK fs (addImagesLoop stale files objects).1 := by
  intro kg hkg tl htl
  rcases addImagesLoop_mem hkg with h1 | ⟨f, _, he⟩
  · exact h kg h1 tl htl
  · rw [he] at htl
    simp at htl

theorem labelIdsOf_of_hasLabelAt {objects : List (String × ImageLabelModel)}
    {k tag x : String} (h : HasLabelAt objects k tag x) :
    x ∈ labelIdsOf objects tag := by
  rcases h with ⟨g, l, hg, hl, hx⟩
  apply List.mem_filterMap.mpr
  exact ⟨(k, g), dictGet_mem hg, by simp [hl, hx]⟩

theorem addLabelsLoop_keys (tag : String) (stale : List String)
    (files : List FSFile) (objects : List (String × ImageLabelModel)) :
    keysOf (addLabelsLoop tag stale files objects).1 = keysOf objects := by
  induction files generalizing objects with
  | nil => rfl
  | cons f rest ih =>
    by_cases hf : f.base ∈ stale
    · simp only [addLabelsLoop, hf, if_true]
      exact ih objects
    · simp only [addLabelsLoop, hf, if_false]
      cases hdg : dictGet objects (imageIdOf f.base) with
      | none => exact ih objects
      | some obj =>
        rw [ih, keysOf_dictSet_of_mem _ (mem_keys_of_dictGet hdg)]

theorem addLabelsLoop_get_none {tag : String} {stale : List String}
    {files : List FSFile} {objects : List (String × ImageLabelModel)}
    {k : String} (h : dictGet objects k = none) :
    dictGet (addLabelsLoop tag stale files objects).1 k = none := by
  apply dictGet_none_of_not_mem_keys
  rw [addLabelsLoop_keys]
  intro hmem
  have := dictGet_isSome_of_mem_keys hmem
  rw [h] at this
  simp at this

theorem addLabelsLoop_nodup {tag : String} {stale : List String}
    {files : List FSFile} {objects : List (String × ImageLabelModel)}
    (h : NodupKeys objects) :
    NodupKeys (addLabelsLoop tag stale files objects).1 := by
  unfold NodupKeys
  rw [addLabelsLoop_keys]
  exact h

theorem addLabelsLoop_invIds {tag : String} {stale : List String}
    {files : List FSFile} {objects : List (String × ImageLabelModel)}
    (h : InvIds objects) :
    InvIds (addLabelsLoop tag stale files objects).1 := by
  induction files generalizing objects with
  | nil => exact h
  | cons f rest ih =>
    by_cases hf : f.base ∈ stale
    · simp only [addLabelsLoop, hf, if_true]
      exact ih h
    · simp only [addLabelsLoop, hf, if_false]
      cases hdg : dictGet objects (imageIdOf f.base) with
      | none => exact ih h
      | some obj =>
        apply ih
        intro kg hkg tl htl
        rcases mem_dictSet hkg with h1 | h1
        · exact h kg h1 tl htl
        · subst h1
          rcases mem_dictSet htl with h2 | h2
          · exact h (imageIdOf f.base, obj) (dictGet_mem hdg) tl h2
          · subst h2
            simp [imageIdOf_idem]

theorem addLabelsLoop_imgOK {fs : FileSystem} {tag : String}
    {stale : List String} {files : List FSFile}
    {objects : List (String × ImageLabelModel)} (h : ImgOK fs objects) :
    ImgOK fs (addLabelsLoop tag stale files objects).1 := by
  induction files generalizing objects with
  | nil => exact h
  | cons f rest ih =>
    by_cases hf : f.base ∈ stale
    · simp only [addLabelsLoop, hf, if_true]
      exact ih h
    · simp only [addLabelsLoop, hf, if_false]
      cases hdg : dictGet objects (imageIdOf f.base) with
      | none => exact ih h
      | some obj =>
        apply ih
        intro kg hkg
        rcases mem_dictSet hkg with h1 | h1
        · exact h kg h1
        · subst h1
          exact h (imageIdOf f.base, obj) (dictGet_mem hdg)

theorem addLabelsLoop_lblOK {fs : FileSystem} {tag : String}
    {stale : List String} {files : List FSFile}
    {objects : List (String × ImageLabelModel)} (h : LblOK fs objects)
    (hfs : ∀ f ∈ files, fs.hasLabel tag f.name = true) :
    LblOK fs (addLabelsLoop tag stale files objects).1 := by
  induction files generalizing objects with
  | nil => exact h
  | cons f rest ih =>
    by_cases hf : f.base ∈ stale
    · simp only [addLabelsLoop, hf, if_true]
      exact ih h (fun f' hf' => hfs f' (List.mem_cons_of_mem _ hf'))
    · simp only [addLabelsLoop, hf, if_false]
      cases hdg : dictGet objects (imageIdOf f.base) with
      | none => exact ih h (fun f' hf' => hfs f' (List.mem_cons_of_mem _ hf'))
      | some obj =>
        refine ih ?_ (fun f' hf' => hfs f' (List.mem_cons_of_mem _ hf'))
        intro kg hkg tl htl
        rcases mem_dictSet hkg with h1 | h1
        · exact h kg h1 tl htl
        · subst h1
          rcases mem_dictSet htl with h2 | h2
          · exact h (imageIdOf f.base, obj) (dictGet_mem hdg) tl h2
          · subst h2
            exact hfs f (List.mem_cons_self _ _)

theorem addLabelsLoop_id {tag : String} {stale : List String}
    {files : List FSFile} {objects : List (String × ImageLabelModel)}
    (h : ∀ f ∈ files, f.base ∈ stale ∨ dictGet objects (imageIdOf f.base) = none) :
    addLabelsLoop tag stale files objects = (objects, 0) := by
  induction files with
  | nil => rfl
  | cons f rest ih =>
    rcases h f (List.mem_cons_self _ _) with h1 | h1
    · simp only [addLabelsLoop, h1, if_true]
      exact ih (fun f' hf' => h f' (List.mem_cons_of_mem _ hf'))
    · by_cases hf : f.base ∈ stale
      · simp only [addLabelsLoop, hf, if_true]
        exact ih (fun f' hf' => h f' (List.mem_cons_of_mem _ hf'))
      · simp only [addLabelsLoop, hf, if_false, h1]
        exact ih (fun f' hf' => h f' (List.mem_cons_of_mem _ hf'))

theorem addLabelsLoop_of_zero {tag : String} {stale : List String}
    {files : List FSFile} {objects : List (String × ImageLabelModel)}
    (h : (addLabelsLoop tag stale files objects).2 = 0) :
    (addLabelsLoop tag stale files objects).1 = objects := by
  induction files generalizing objects with
  | nil => rfl
  | cons f rest ih =>
    by_cases hf : f.base ∈ stale
    · simp only [addLabelsLoop, hf, if_true] at h ⊢
      exact ih h
    · simp only [addLabelsLoop, hf, if_false] at h ⊢
      cases hdg : dictGet objects (imageIdOf f.base) with
      | none =>
        rw [hdg] at h
        exact ih h
      | some obj =>
        rw [hdg] at h
        exact (Nat.succ_ne_zero _ h).elim

theorem filterMap_dictSet_eq {α β : Type} {d : List (String × α)} {k : String}
    {v v' : α} {f : String × α → Option β} (hg : dictGet d k = some v)
    (he : f (k, v') = f (k, v)) :
    List.filterMap f (dictSet d k v') = List.filterMap f d := by
  induction d with
  | nil => simp [dictGet] at hg
  | cons x rest ih =>
    obtain ⟨k', vx⟩ := x
    by_cases hk : k' = k
    · subst hk
      rw [dictGet, if_pos (by simp)] at hg
      injection hg with hg
      subst hg
      rw [dictSet, if_pos (by simp)]
      rw [List.filterMap_cons, List.filterMap_cons, he]
    · rw [dictGet, if_neg (by simpa using hk)] at hg
      rw [dictSet, if_neg (by simpa using hk)]
      rw [List.filterMap_cons, List.filterMap_cons, ih hg]

/-- The pass for one tag leaves the recorded label ids of every other tag
unchanged. -/
theorem addLabelsLoop_labelIds_ne {tag : String} {stale : List String}
    {files : List FSFile} {objects : List (String × ImageLabelModel)}
    {t' : String} (hne : t' ≠ tag) :
    labelIdsOf (addLabelsLoop tag stale files objects).1 t' =
      labelIdsOf objects t' := by
  induction files generalizing objects with
  | nil => rfl
  | cons f rest ih =>
    by_cases hf : f.base ∈ stale
    · simp only [addLabelsLoop, hf, if_true]
      exact ih
    · simp only [addLabelsLoop, hf, if_false]
      cases hdg : dictGet objects (imageIdOf f.base) with
      | none => exact ih
      | some obj =>
        rw [ih]
        apply filterMap_dictSet_eq hdg
        simp only [dictGet_dictSet_ne _ _ _ _ hne]

/-- Labels already recorded for a group survive the pass unless a file
inferring the same group carries a different, new label id. -/
theorem addLabelsLoop_preserves {tag : String} {stale : List String}
    {files : List FSFile} {objects : List (String × ImageLabelModel)}
    {k x : String} (hk : HasLabelAt objects k tag x)
    (hsafe : ∀ f ∈ files, imageIdOf f.base = k → f.base ∈ stale ∨ f.base = x) :
    HasLabelAt (addLabelsLoop tag stale files objects).1 k tag x := by
  induction files generalizing objects with
  | nil => exact hk
  | cons f rest ih =>
    have hsafe' : ∀ f' ∈ rest, imageIdOf f'.base = k → f'.base ∈ stale ∨ f'.base = x :=
      fun f' hf' => hsafe f' (List.mem_cons_of_mem _ hf')
    by_cases hf : f.base ∈ stale
    · simp only [addLabelsLoop, hf, if_true]
      exact ih hk hsafe'
    · simp only [addLabelsLoop, hf, if_false]
      cases hdg : dictGet objects (imageIdOf f.base) with
      | none => exact ih hk hsafe'
      | some obj =>
        by_cases hkk : imageIdOf f.base = k
        · rcases hsafe f (List.mem_cons_self _ _) hkk with h1 | h1
          · exact absurd h1 hf
          · subst h1
            apply ih ?_ hsafe'
            refine ⟨⟨obj.image, dictSet obj.labels tag ⟨f.base, f.ext, []⟩⟩,
              ⟨f.base, f.ext, []⟩, ?_, dictGet_dictSet_self _ _ _, rfl⟩
            rw [← hkk]
            exact dictGet_dictSet_self _ _ _
        · apply ih ?_ hsafe'
          rcases hk with ⟨g, l, hg, hl, hx⟩
          refine ⟨g, l, ?_, hl, hx⟩
          rw [dictGet_dictSet_ne _ _ _ _ (fun he => hkk he.symm)]
          exact hg

/-- The coverage lemma: after the pass for one tag, every file of that
tag's directory is recorded or is an orphan — provided no two files of
the directory infer the same image with different label ids. -/
theorem addLabelsLoop_covers {tag : String} {stale : List String}
    {files : List FSFile} {objects : List (String × ImageLabelModel)}
    (hpw : ∀ f1 ∈ files, ∀ f2 ∈ files,
      imageIdOf f1.base = imageIdOf f2.base → f1.base = f2.base)
    (hst : StaleWitness objects tag stale files) :
    ∀ f ∈ files,
      (∃ k, HasLabelAt (addLabelsLoop tag stale files objects).1 k tag f.base) ∨
      dictGet (addLabelsLoop tag stale files objects).1 (imageIdOf f.base) = none := by
  induction files generalizing objects with
  | nil => simp
  | cons f0 rest ih =>
    have hpw' : ∀ f1 ∈ rest, ∀ f2 ∈ rest,
        imageIdOf f1.base = imageIdOf f2.base → f1.base = f2.base :=
      fun f1 h1 f2 h2 => hpw f1 (List.mem_cons_of_mem _ h1) f2 (List.mem_cons_of_mem _ h2)
    intro f hf
    by_cases hf0 : f0.base ∈ stale
    · simp only [addLabelsLoop, hf0, if_true]
      rcases List.mem_cons.mp hf with h1 | h1
      · subst h1
        rcases hst f (List.mem_cons_self _ _) hf0 with ⟨k, hk, hrel⟩
        left
        refine ⟨k, addLabelsLoop_preserves hk ?_⟩
        intro f' hf' hkey
        right
        apply hpw f' (List.mem_cons_of_mem _ hf') f (List.mem_cons_self _ _)
        rw [hkey, ← imageIdOf_self_of_eq hkey, ← hrel]
      · exact ih hpw'
          (fun f' h' hs => hst f' (List.mem_cons_of_mem _ h') hs) f h1
    · simp only [addLabelsLoop, hf0, if_false]
      cases hdg : dictGet objects (imageIdOf f0.base) with
      | none =>
        rcases List.mem_cons.mp hf with h1 | h1
        · subst h1
          right
          exact addLabelsLoop_get_none hdg
        · exact ih hpw'
            (fun f' h' hs => hst f' (List.mem_cons_of_mem _ h') hs) f h1
      | some obj =>
        rcases List.mem_cons.mp hf with h1 | h1
        · subst h1
          left
          refine ⟨imageIdOf f.base, addLabelsLoop_preserves
            ⟨⟨obj.image, dictSet obj.labels tag ⟨f.base, f.ext, []⟩⟩,
              ⟨f.base, f.ext, []⟩, dictGet_dictSet_self _ _ _,
              dictGet_dictSet_self _ _ _, rfl⟩ ?_⟩
          intro f' hf' hkey
          right
          exact hpw f' (List.mem_cons_of_mem _ hf') f (List.mem_cons_self _ _) hkey
        · apply ih hpw' ?_ f h1
          intro f'' hf'' hs
          rcases hst f'' (List.mem_cons_of_mem _ hf'') hs with ⟨k, hk, hrel⟩
          by_cases hkk : imageIdOf f0.base = k
          · have hkfix : imageIdOf k = k := imageIdOf_self_of_eq hkk
            have heq : imageIdOf f''.base = imageIdOf f0.base := by
              rw [hrel, hkfix, ← hkk]
            have hFb : f''.base = f0.base :=
              hpw f'' (List.mem_cons_of_mem _ hf'') f0 (List.mem_cons_self _ _) heq
            refine ⟨imageIdOf f0.base,
              ⟨⟨obj.image, dictSet obj.labels tag ⟨f0.base, f0.ext, []⟩⟩,
                ⟨f0.base, f0.ext, []⟩, dictGet_dictSet_self _ _ _,
                dictGet_dictSet_self _ _ _, hFb.symm⟩, ?_⟩
            rw [heq, imageIdOf_idem]
          · refine ⟨k, ?_, hrel⟩
            rcases hk with ⟨g, l, hg, hl, hx⟩
            refine ⟨g, l, ?_, hl, hx⟩
            rw [dictGet_dictSet_ne _ _ _ _ (fun he => hkk he.symm)]
            exact hg

/-- Coverage for one tag directory, from the stale snapshot the source
takes before the loop. -/
theorem addNonExistingLabels_covers {tag : String} {d : DirState}
    {objects : List (String × ImageLabelModel)} (hnd : NodupKeys objects)
    (hinv : InvIds objects)
    (hpw : ∀ f1 ∈ d.files, ∀ f2 ∈ d.files,
      imageIdOf f1.base = imageIdOf f2.base → f1.base = f2.base) :
    ∀ f ∈ d.files,
      f.base ∈ labelIdsOf (addNonExistingLabels tag d objects).1 tag ∨
      dictGet (addNonExistingLabels tag d objects).1 (imageIdOf f.base) = none := by
  have hst : StaleWitness objects tag (labelIdsOf objects tag) d.files := by
    intro f' hf' hs
    rcases List.mem_filterMap.mp hs with ⟨kg, hkg, he⟩
    cases hl : dictGet kg.2.labels tag with
    | none => rw [hl] at he; simp at he
    | some l =>
      rw [hl] at he
      simp only [Option.map_some', Option.some.injEq] at he
      refine ⟨kg.1, ⟨kg.2, l, dictGet_of_mem_nodup hnd hkg, hl, he⟩, ?_⟩
      rw [← he]
      exact hinv kg hkg (tag, l) (dictGet_mem hl)
  intro f hf
  rcases addLabelsLoop_covers hpw hst f hf with ⟨k, hk⟩ | h
  · left
    exact labelIdsOf_of_hasLabelAt hk
  · right
    exact h

/-! ## The per-tag fold of `_reconcile_datastore` -/
theorem addLabelsTags_keys (dirs : List (String × DirState))
    (objects : List (String × ImageLabelModel)) :
    keysOf (addLabelsTags dirs objects).1 = keysOf objects := by
  induction dirs generalizing objects with
  | nil => rfl
  | cons td rest ih =>
    obtain ⟨t0, d0⟩ := td
    show keysOf (addLabelsTags rest (addNonExistingLabels t0 d0 objects).1).1 = _
    rw [ih]
    exact addLabelsLoop_keys _ _ _ _

theorem addLabelsTags_get_none {dirs : List (String × DirState)}
    {objects : List (String × ImageLabelModel)} {k : String}
    (h : dictGet objects k = none) :
    dictGet (addLabelsTags dirs objects).1 k = none := by
  apply dictGet_none_of_not_mem_keys
  rw [addLabelsTags_keys]
  intro hmem
  have := dictGet_isSome_of_mem_keys hmem
  rw [h] at this
  simp at this

theorem addLabelsTags_nodup {dirs : List (String × DirState)}
    {objects : List (String × ImageLabelModel)} (h : NodupKeys objects) :
    NodupKeys (addLabelsTags dirs objects).1 := by
  unfold NodupKeys
  rw [addLabelsTags_keys]
  exact h

theorem addLabelsTags_invIds {dirs : List (String × DirState)}
    {objects : List (String × ImageLabelModel)} (h : InvIds objects) :
    InvIds (addLabelsTags dirs objects).1 := by
  induction dirs generalizing objects with
  | nil => exact h
  | cons td rest ih =>
    obtain ⟨t0, d0⟩ := td
    show InvIds (addLabelsTags rest (addNonExistingLabels t0 d0 objects).1).1
    exact ih (addLabelsLoop_invIds h)

theorem addLabelsTags_imgOK {fs : FileSystem} {dirs : List (String × DirState)}
    {objects : List (String × ImageLabelModel)} (h : ImgOK fs objects) :
    ImgOK fs (addLabelsTags dirs objects).1 := by
  induction dirs generalizing objects with
  | nil => exact h
  | cons td rest ih =>
    obtain ⟨t0, d0⟩ := td
    show ImgOK fs (addLabelsTags rest (addNonExistingLabels t0 d0 objects).1).1
    exact ih (addLabelsLoop_imgOK h)

theorem addLabelsTags_lblOK {fs : FileSystem} {dirs : List (String × DirState)}
    {objects : List (String × ImageLabelModel)} (h : LblOK fs objects)
    (hdirs : ∀ td ∈ dirs, ∀ f ∈ td.2.files, fs.hasLabel td.1 f.name = true) :
    LblOK fs (addLabelsTags dirs objects).1 := by
  induction dirs generalizing objects with
  | nil => exact h
  | cons td rest ih =>
    obtain ⟨t0, d0⟩ := td
    show LblOK fs (addLabelsTags rest (addNonExistingLabels t0 d0 objects).1).1
    refine ih (addLabelsLoop_lblOK h ?_)
      (fun td' h' => hdirs td' (List.mem_cons_of_mem _ h'))
    exact fun f hf => hdirs (t0, d0) (List.mem_cons_self _ _) f hf

theorem addLabelsTags_labelIds_notin {dirs : List (String × DirState)}
    {objects : List (String × ImageLabelModel)} {t : String}
    (h : t ∉ keysOf dirs) :
    labelIdsOf (addLabelsTags dirs objects).1 t = labelIdsOf objects t := by
  induction dirs generalizing objects with
  | nil => rfl
  | cons td rest ih =>
    obtain ⟨t0, d0⟩ := td
    have hne : t ≠ t0 := by
      intro he
      exact h (by simp [keysOf, he])
    have hrest : t ∉ keysOf rest := by
      intro hm
      exact h (by simp only [keysOf, List.map_cons, List.mem_cons]; right; exact hm)
    show labelIdsOf (addLabelsTags rest (addNonExistingLabels t0 d0 objects).1).1 t = _
    rw [ih hrest]
    exact addLabelsLoop_labelIds_ne hne

/-- Coverage over all tag directories. -/
theorem addLabelsTags_covers {dirs : List (String × DirState)}
    {objects : List (String × ImageLabelModel)} (hndd : NodupKeys dirs)
    (hnd : NodupKeys objects) (hinv : InvIds objects)
    (hpw : ∀ td ∈ dirs, ∀ f1 ∈ td.2.files, ∀ f2 ∈ td.2.files,
      imageIdOf f1.base = imageIdOf f2.base → f1.base = f2.base) :
    ∀ td ∈ dirs, ∀ f ∈ td.2.files,
      f.base ∈ labelIdsOf (addLabelsTags dirs objects).1 td.1 ∨
      dictGet (addLabelsTags dirs objects).1 (imageIdOf f.base) = none := by
  induction dirs generalizing objects with
  | nil => simp
  | cons td0 rest ih =>
    obtain ⟨t0, d0⟩ := td0
    intro td htd f hf
    rcases List.mem_cons.mp htd with h1 | h1
    · subst h1
      rcases addNonExistingLabels_covers hnd hinv
        (hpw (t0, d0) (List.mem_cons_self _ _)) f hf with hc | hc
      · left
        show f.base ∈
          labelIdsOf (addLabelsTags rest (addNonExistingLabels t0 d0 objects).1).1 t0
        rw [addLabelsTags_labelIds_notin (nodupKeys_cons hndd).1]
        exact hc
      · right
        show dictGet (addLabelsTags rest (addNonExistingLabels t0 d0 objects).1).1
          (imageIdOf f.base) = none
        exact addLabelsTags_get_none hc
    · exact ih (nodupKeys_cons hndd).2 (addLabelsLoop_nodup hnd)
        (addLabelsLoop_invIds hinv)
        (fun td' h' => hpw td' (List.mem_cons_of_mem _ h')) td h1 f hf

theorem addLabelsTags_id {dirs : List (String × DirState)}
    {objects : List (String × ImageLabelModel)}
    (h : ∀ td ∈ dirs, ∀ f ∈ td.2.files,
      f.base ∈ labelIdsOf objects td.1 ∨
      dictGet objects (imageIdOf f.base) = none) :
    addLabelsTags dirs objects = (objects, 0) := by
  induction dirs with
  | nil => rfl
  | cons td rest ih =>
    obtain ⟨t0, d0⟩ := td
    have hhead : addNonExistingLabels t0 d0 objects = (objects, 0) :=
      addLabelsLoop_id (h (t0, d0) (List.mem_cons_self _ _))
    have hrest : addLabelsTags rest objects = (objects, 0) :=
      ih (fun td' h' => h td' (List.mem_cons_of_mem _ h'))
    simp [addLabelsTags, hhead, hrest]

theorem addLabelsTags_of_zero {dirs : List (String × DirState)}
    {objects : List (String × ImageLabelModel)}
    (h : (addLabelsTags dirs objects).2 = 0) :
    (addLabelsTags dirs objects).1 = objects := by
  induction dirs generalizing objects with
  | nil => rfl
  | cons td rest ih =>
    obtain ⟨t0, d0⟩ := td
    have hsum : (addNonExistingLabels t0 d0 objects).2 +
        (addLabelsTags rest (addNonExistingLabels t0 d0 objects).1).2 = 0 := h
    have h' : (addNonExistingLabels t0 d0 objects).2 = 0 ∧
        (addLabelsTags rest (addNonExistingLabels t0 d0 objects).1).2 = 0 := by
      constructor <;> omega
    show (addLabelsTags rest (addNonExistingLabels t0 d0 objects).1).1 = objects
    rw [ih h'.2]
    exact addLabelsLoop_of_zero h'.1

/-! ## Reconciliation: establishment and idempotence -/
theorem hasLabel_of_mem_dir {fs : FileSystem} {t : String} {d : DirState}
    {f : FSFile} (hndd : TagDirsNodup fs) (htd : (t, d) ∈ fs.labelDirs)
    (hf : f ∈ d.files) : fs.hasLabel t f.name = true := by
  unfold FileSystem.hasLabel
  rw [dictGet_of_mem_nodup hndd htd]
  exact hasName_of_mem hf

/-- Running the reconciler on any index whose dictionaries are well
formed and whose label ids respect the id-shape invariant leaves a fully
consistent index, provided each tag directory carries at most one label
id per inferred image. -/
theorem reconcileModel_consistent (fs : FileSystem) (m : LocalDatastoreModel)
    (hnd : NodupKeys m.objects) (hinv : InvIds m.objects)
    (hndd : TagDirsNodup fs) (htu : TagUnique fs) :
    Consistent fs (reconcileModel fs m).1.objects := by
  have ok1 := removeNonExisting_ok fs m.objects
  have nd1 : NodupKeys (removeNonExisting fs m.objects).1 :=
    removeNonExisting_nodup hnd
  have inv1 : InvIds (removeNonExisting fs m.objects).1 :=
    removeNonExisting_invIds hinv
  have hfimg : ∀ f ∈ fs.images.files, fs.hasImage f.name = true :=
    fun f hf => hasImage_of_mem hf
  have img2 : ImgOK fs (addNonExistingImages fs (removeNonExisting fs m.objects).1).1 :=
    addImagesLoop_imgOK ok1.1 hfimg
  have lbl2 : LblOK fs (addNonExistingImages fs (removeNonExisting fs m.objects).1).1 :=
    addImagesLoop_lblOK ok1.2
  have nd2 : NodupKeys (addNonExistingImages fs (removeNonExisting fs m.objects).1).1 :=
    addImagesLoop_nodup nd1
  have inv2 : InvIds (addNonExistingImages fs (removeNonExisting fs m.objects).1).1 :=
    addImagesLoop_invIds inv1
  have cov2 : ImgsCovered fs (addNonExistingImages fs (removeNonExisting fs m.objects).1).1 :=
    addImagesLoop_covers (fun k hk => hk)
  have hdirs : ∀ td ∈ fs.labelDirs, ∀ f ∈ td.2.files,
      fs.hasLabel td.1 f.name = true := by
    intro td htd f hf
    obtain ⟨t, d⟩ := td
    exact hasLabel_of_mem_dir hndd htd hf
  set o2 := (addNonExistingImages fs (removeNonExisting fs m.objects).1).1 with ho2
  have img3 : ImgOK fs (addLabelsTags fs.labelDirs o2).1 := addLabelsTags_imgOK img2
  have lbl3 : LblOK fs (addLabelsTags fs.labelDirs o2).1 :=
    addLabelsTags_lblOK lbl2 hdirs
  have nd3 : NodupKeys (addLabelsTags fs.labelDirs o2).1 := addLabelsTags_nodup nd2
  have inv3 : InvIds (addLabelsTags fs.labelDirs o2).1 := addLabelsTags_invIds inv2
  have cov3 : ImgsCovered fs (addLabelsTags fs.labelDirs o2).1 := by
    intro f hf
    rw [addLabelsTags_keys]
    exact cov2 f hf
  have lcov3 : LblsCovered fs (addLabelsTags fs.labelDirs o2).1 :=
    addLabelsTags_covers hndd nd2 inv2 htu
  have hid4 : removeNonExisting fs (addLabelsTags fs.labelDirs o2).1 =
      ((addLabelsTags fs.labelDirs o2).1, 0) := removeNonExisting_id img3 lbl3
  have hobj : (reconcileModel fs m).1.objects = (addLabelsTags fs.labelDirs o2).1 := by
    show (removeNonExisting fs (addLabelsTags fs.labelDirs o2).1).1 = _
    rw [hid4]
  rw [hobj]
  exact ⟨nd3, inv3, img3, lbl3, cov3, lcov3⟩

/-- On a consistent index, every reconciler pass finds nothing to do: the
reconciliation is the identity with a zero invalidation count. -/
theorem reconcileModel_id (fs : FileSystem) (m : LocalDatastoreModel)
    (hc : Consistent fs m.objects) : reconcileModel fs m = (m, 0) := by
  obtain ⟨hnd, hinv, himg, hlbl, hcov, hlcov⟩ := hc
  have h1 : removeNonExisting fs m.objects = (m.objects, 0) :=
    removeNonExisting_id himg hlbl
  have h2 : addImagesLoop (keysOf m.objects) fs.images.files m.objects =
      (m.objects, 0) := addImagesLoop_id hcov
  have h3 : addLabelsTags fs.labelDirs m.objects = (m.objects, 0) :=
    addLabelsTags_id hlcov
  have he : reconcileModel fs m = ({ m with objects := m.objects }, 0 + 0 + 0 + 0) := by
    simp only [reconcileModel, addNonExistingImages, h1, h2, h3]
  rw [he]

theorem addNonExistingImages_of_zero {fs : FileSystem}
    {objects : List (String × ImageLabelModel)}
    (h : (addNonExistingImages fs objects).2 = 0) :
    (addNonExistingImages fs objects).1 = objects := addImagesLoop_of_zero h

/-- A zero invalidation count means the reconciliation changed nothing. -/
theorem reconcileModel_of_zero {fs : FileSystem} {m : LocalDatastoreModel}
    (h : (reconcileModel fs m).2 = 0) : (reconcileModel fs m).1 = m := by
  have hsum : (removeNonExisting fs m.objects).2 +
      (addNonExistingImages fs (removeNonExisting fs m.objects).1).2 +
      (addLabelsTags fs.labelDirs
        (addNonExistingImages fs (removeNonExisting fs m.objects).1).1).2 +
      (removeNonExisting fs
        (addLabelsTags fs.labelDirs
          (addNonExistingImages fs (removeNonExisting fs m.objects).1).1).1).2 = 0 := h
  have e1 : (removeNonExisting fs m.objects).1 = m.objects :=
    removeNonExisting_of_zero (by omega)
  have e2 : (addNonExistingImages fs (removeNonExisting fs m.objects).1).1 =
      (removeNonExisting fs m.objects).1 :=
    addNonExistingImages_of_zero (by omega)
  have e3 : (addLabelsTags fs.labelDirs
      (addNonExistingImages fs (removeNonExisting fs m.objects).1).1).1 =
      (addNonExistingImages fs (removeNonExisting fs m.objects).1).1 :=
    addLabelsTags_of_zero (by omega)
  have e4 : (removeNonExisting fs
      (addLabelsTags fs.labelDirs
        (addNonExistingImages fs (removeNonExisting fs m.objects).1).1).1).1 =
      (addLabelsTags fs.labelDirs
        (addNonExistingImages fs (removeNonExisting fs m.objects).1).1).1 :=
    removeNonExisting_of_zero (by omega)
  show ({ m with objects := (removeNonExisting fs
      (addLabelsTags fs.labelDirs
        (addNonExistingImages fs (removeNonExisting fs m.objects).1).1).1).1 } :
    LocalDatastoreModel) = m
  rw [e4, e3, e2, e1]

/-! ## Refresh-level lemmas -/
theorem initFromFile_fs (s : DatastoreState) : (initFromFile s).fs = s.fs := by
  unfold initFromFile initFromFileT
  cases s.configFile with
  | none => rfl
  | some parsed => cases parsed <;> simp <;> split <;> simp

theorem initFromFile_skip {s : DatastoreState} (h : s.configTs = s.fileTs) :
    initFromFile s = s := by
  unfold initFromFile initFromFileT
  cases s.configFile with
  | none => rfl
  | some parsed => simp [h]

theorem initFromFile_idem (s : DatastoreState) :
    initFromFile (initFromFile s) = initFromFile s := by
  cases hc : s.configFile with
  | none =>
    have he : initFromFile s = s := by
      unfold initFromFile initFromFileT
      rw [hc]
      rfl
    rw [he, he]
  | some parsed =>
    by_cases hts : s.configTs = s.fileTs
    · rw [initFromFile_skip hts, initFromFile_skip hts]
    · cases parsed with
      | none =>
        have he : initFromFile s = s := by
          unfold initFromFile initFromFileT
          rw [hc]
          simp [beq_iff_eq, hts]
        rw [he, he]
      | some m =>
        have he : initFromFile s = { s with datastore := m, configTs := s.fileTs } := by
          unfold initFromFile initFromFileT
          rw [hc]
          simp [beq_iff_eq, hts]
        rw [he]
        exact initFromFile_skip rfl

theorem updateDatastoreFile_skip (s : DatastoreState) :
    initFromFile (updateDatastoreFile s) = updateDatastoreFile s :=
  initFromFile_skip rfl

/-- C5 counterexample: starting from an empty index with image `a.nii`
and the two `final` label files `a.nii` and `a+1.nii`, the first
`refresh()` counts three invalidations and the second — with no
filesystem change in between — counts one (the stale `label_ids`
snapshot makes the two files overwrite each other's entry on alternating
runs), not zero as the claim states. -/
theorem refresh_twice_not_idempotent :
    (refreshC oscState).2 = 3 ∧ (refreshC (refreshC oscState).1).2 = 1 :=
  ⟨rfl, rfl⟩

/-- C5, amended: when the starting Index (after the guarded reload of the
first call) has well-formed dictionaries and satisfies the label-id
invariant, and within each tag directory no two label files owned by the
same inferred image carry different label ids, a second `refresh()` with
no filesystem changes in between reconciles with a zero invalidation
count and leaves everything — index, filesystem and persisted file —
exactly as the first call left it. -/
theorem refresh_twice_zero (s : DatastoreState)
    (hnd : NodupKeys (initFromFile s).datastore.objects)
    (hinv : InvIds (initFromFile s).datastore.objects)
    (hndd : TagDirsNodup s.fs) (htu : TagUnique s.fs) :
    refreshC (refreshC s).1 = ((refreshC s).1, 0) := by
  have htfs : (initFromFile s).fs = s.fs := initFromFile_fs s
  have hcons : Consistent (initFromFile s).fs
      (reconcileModel (initFromFile s).fs (initFromFile s).datastore).1.objects := by
    rw [htfs]
    exact reconcileModel_consistent s.fs (initFromFile s).datastore hnd hinv hndd htu
  by_cases hn : (reconcileModel (initFromFile s).fs (initFromFile s).datastore).2 = 0
  · have hm : (reconcileModel (initFromFile s).fs (initFromFile s).datastore).1 =
        (initFromFile s).datastore := reconcileModel_of_zero hn
    have hs1 : (refreshC s).1 = initFromFile s := by
      unfold refreshC reconcileDatastore
      rw [if_neg (by simp [hn]), hm]
    rw [hs1]
    have hcons' : Consistent (initFromFile s).fs (initFromFile s).datastore.objects := by
      rw [hm] at hcons
      exact hcons
    have hrec : reconcileModel (initFromFile s).fs (initFromFile s).datastore =
        ((initFromFile s).datastore, 0) := reconcileModel_id _ _ hcons'
    unfold refreshC reconcileDatastore
    rw [initFromFile_idem, hrec]
    rfl
  · have hs1 : (refreshC s).1 = updateDatastoreFile
        { initFromFile s with datastore :=
          (reconcileModel (initFromFile s).fs (initFromFile s).datastore).1 } := by
      unfold refreshC reconcileDatastore
      rw [if_pos (by simp [hn])]
    rw [hs1]
    unfold refreshC
    rw [updateDatastoreFile_skip]
    unfold reconcileDatastore
    have hrec : reconcileModel
        (updateDatastoreFile { initFromFile s with datastore :=
          (reconcileModel (initFromFile s).fs (initFromFile s).datastore).1 }).fs
        (updateDatastoreFile { initFromFile s with datastore :=
          (reconcileModel (initFromFile s).fs (initFromFile s).datastore).1 }).datastore =
        ((reconcileModel (initFromFile s).fs (initFromFile s).datastore).1, 0) := by
      show reconcileModel (initFromFile s).fs
        (reconcileModel (initFromFile s).fs (initFromFile s).datastore).1 = _
      exact reconcileModel_id _ _ hcons
    rw [hrec]
    rfl

/-- Witness for the amended C5 at `idemState`. -/
theorem refresh_twice_zero_witness :
    refreshC (refreshC idemState).1 = ((refreshC idemState).1, 0) := by
  apply refresh_twice_zero idemState
  · exact List.nodup_nil
  · intro kg hkg
    exact absurd hkg (List.not_mem_nil _)
  · show (["final"] : List String).Nodup
    exact List.nodup_singleton _
  · intro td htd f1 h1 f2 h2 _
    simp only [idemState, List.mem_singleton] at htd
    subst htd
    simp only [List.mem_singleton] at h1 h2
    rw [h1, h2]

theorem dictGet_none_not_mem_keys {α : Type} {d : List (String × α)}
    {k : String} (h : dictGet d k = none) : k ∉ keysOf d := by
  intro hmem
  have := dictGet_isSome_of_mem_keys hmem
  rw [h] at this
  simp at this

theorem removeNonExisting_get_none {fs : FileSystem}
    {objects : List (String × ImageLabelModel)} {k : String}
    (h : dictGet objects k = none) :
    dictGet (removeNonExisting fs objects).1 k = none := by
  apply dictGet_none_of_not_mem_keys
  intro hmem
  exact dictGet_none_not_mem_keys h
    ((removeNonExisting_keys_sublist fs objects).mem hmem)

theorem removeNonExisting_not_holds {fs : FileSystem}
    {objects : List (String × ImageLabelModel)} {x : String}
    (h : ¬ holdsLabel objects x) :
    ¬ holdsLabel (removeNonExisting fs objects).1 x := by
  rintro ⟨kg, hkg, tl, htl, hx⟩
  rcases removeNonExisting_mem hkg with ⟨g, hm, _, _, hl⟩
  exact h ⟨(kg.1, g), hm, tl, (hl tl htl).1, hx⟩

theorem addImagesLoop_get_none {stale : List String} {files : List FSFile}
    {objects : List (String × ImageLabelModel)} {k : String}
    (h : dictGet objects k = none) (hne : ∀ f ∈ files, f.base ≠ k) :
    dictGet (addImagesLoop stale files objects).1 k = none := by
  induction files generalizing objects with
  | nil => exact h
  | cons f rest ih =>
    by_cases hf : f.base ∈ stale
    · simp only [addImagesLoop, hf, if_true]
      exact ih h (fun f' hf' => hne f' (List.mem_cons_of_mem _ hf'))
    · simp only [addImagesLoop, hf, if_false]
      refine ih ?_ (fun f' hf' => hne f' (List.mem_cons_of_mem _ hf'))
      rw [dictGet_dictSet_ne _ _ _ _
        (fun he => hne f (List.mem_cons_self _ _) (he.symm))]
      exact h

theorem addImagesLoop_not_holds {stale : List String} {files : List FSFile}
    {objects : List (String × ImageLabelModel)} {x : String}
    (h : ¬ holdsLabel objects x) :
    ¬ holdsLabel (addImagesLoop stale files objects).1 x := by
  rintro ⟨kg, hkg, tl, htl, hx⟩
  rcases addImagesLoop_mem hkg with h1 | ⟨f, _, he⟩
  · exact h ⟨kg, h1, tl, htl, hx⟩
  · rw [he] at htl
    simp at htl

theorem addLabelsLoop_not_holds {tag : String} {stale : List String}
    {files : List FSFile} {objects : List (String × ImageLabelModel)}
    {x : String} (hnone : dictGet objects (imageIdOf x) = none)
    (h : ¬ holdsLabel objects x) :
    ¬ holdsLabel (addLabelsLoop tag stale files objects).1 x := by
  induction files generalizing objects with
  | nil => exact h
  | cons f rest ih =>
    by_cases hf : f.base ∈ stale
    · simp only [addLabelsLoop, hf, if_true]
      exact ih hnone h
    · simp only [addLabelsLoop, hf, if_false]
      cases hdg : dictGet objects (imageIdOf f.base) with
      | none => exact ih hnone h
      | some obj =>
        have hne : imageIdOf f.base ≠ imageIdOf x := by
          intro he
          rw [he, hnone] at hdg
          cases hdg
        have hbne : f.base ≠ x := fun he => hne (he ▸ rfl)
        refine ih ?_ ?_
        · rw [dictGet_dictSet_ne _ _ _ _ (fun he => hne he.symm)]
          exact hnone
        · rintro ⟨kg, hkg, tl, htl, hx⟩
          rcases mem_dictSet hkg with h1 | h1
          · exact h ⟨kg, h1, tl, htl, hx⟩
          · subst h1
            rcases mem_dictSet htl with h2 | h2
            · exact h ⟨(imageIdOf f.base, obj), dictGet_mem hdg, tl, h2, hx⟩
            · subst h2
              exact hbne hx

theorem addLabelsTags_not_holds {dirs : List (String × DirState)}
    {objects : List (String × ImageLabelModel)} {x : String}
    (hnone : dictGet objects (imageIdOf x) = none)
    (h : ¬ holdsLabel objects x) :
    ¬ holdsLabel (addLabelsTags dirs objects).1 x := by
  induction dirs generalizing objects with
  | nil => exact h
  | cons td rest ih =>
    obtain ⟨t0, d0⟩ := td
    show ¬ holdsLabel (addLabelsTags rest (addNonExistingLabels t0 d0 objects).1).1 x
    exact ih (addLabelsLoop_get_none hnone) (addLabelsLoop_not_holds hnone h)

theorem pairTruthy_true (p : Option String × Option DataModel) :
    pairTruthy p = true := rfl

/-- With no group holding the label id anywhere, the datastore-wide label
lookup comes back empty. -/
theorem label_lookup_none {m : LocalDatastoreModel} {x : String}
    (h : ¬ holdsLabel m.objects x) : m.label x = (none, none) := by
  unfold LocalDatastoreModel.label LocalDatastoreModel.filter_by_id
  cases hm : m.objects with
  | nil => rfl
  | cons kg rest =>
    simp only [List.map_cons, List.filter_cons, pairTruthy_true, if_true]
    show kg.2.label x = (none, none)
    unfold ImageLabelModel.label
    rw [List.find?_eq_none.mpr]
    intro tl htl
    simp only [beq_eq_false_iff_ne, ne_eq, Bool.not_eq_true]
    intro he
    exact h ⟨kg, hm ▸ List.mem_cons_self _ _, tl, htl, by simpa using he⟩

/-- C4: during reconciliation, a label file whose stem (after stripping
the `+variant` suffix) names an image id with no group in the Index — and
for which no image file would create that group — is skipped: no label
entry is created for it, no synthetic image group appears, and
`get_label` / `get_label_uri` / `get_label_info` never resolve it
afterwards. -/
theorem orphan_label_not_adopted (m : LocalDatastoreModel) (fs : FileSystem)
    (td : String × DirState) (f : FSFile) (s : DatastoreState)
    (htd : td ∈ fs.labelDirs) (hf : f ∈ td.2.files)
    (hno : dictGet m.objects (imageIdOf f.base) = none)
    (hnoimg : ∀ g ∈ fs.images.files, g.base ≠ imageIdOf f.base)
    (hnl : ¬ holdsLabel m.objects f.base)
    (hs : s.datastore = (reconcileModel fs m).1) :
    dictGet (reconcileModel fs m).1.objects (imageIdOf f.base) = none ∧
    ¬ holdsLabel (reconcileModel fs m).1.objects f.base ∧
    get_label s f.base = none ∧ get_label_uri s f.base = "" ∧
    get_label_info s f.base = [] := by
  have h1 : dictGet (removeNonExisting fs m.objects).1 (imageIdOf f.base) = none :=
    removeNonExisting_get_none hno
  have h1h : ¬ holdsLabel (removeNonExisting fs m.objects).1 f.base :=
    removeNonExisting_not_holds hnl
  have h2 : dictGet (addNonExistingImages fs (removeNonExisting fs m.objects).1).1
      (imageIdOf f.base) = none := addImagesLoop_get_none h1 hnoimg
  have h2h : ¬ holdsLabel (addNonExistingImages fs (removeNonExisting fs m.objects).1).1 f.base :=
    addImagesLoop_not_holds h1h
  have h3 : dictGet (addLabelsTags fs.labelDirs
      (addNonExistingImages fs (removeNonExisting fs m.objects).1).1).1
      (imageIdOf f.base) = none := addLabelsTags_get_none h2
  have h3h : ¬ holdsLabel (addLabelsTags fs.labelDirs
      (addNonExistingImages fs (removeNonExisting fs m.objects).1).1).1 f.base :=
    addLabelsTags_not_holds h2 h2h
  have h4 : dictGet (reconcileModel fs m).1.objects (imageIdOf f.base) = none := by
    show dictGet (removeNonExisting fs (addLabelsTags fs.labelDirs
      (addNonExistingImages fs (removeNonExisting fs m.objects).1).1).1).1
      (imageIdOf f.base) = none
    exact removeNonExisting_get_none h3
  have h4h : ¬ holdsLabel (reconcileModel fs m).1.objects f.base := by
    show ¬ holdsLabel (removeNonExisting fs (addLabelsTags fs.labelDirs
      (addNonExistingImages fs (removeNonExisting fs m.objects).1).1).1).1 f.base
    exact removeNonExisting_not_holds h3h
  have hlook : s.datastore.label f.base = (none, none) := by
    rw [hs]
    exact label_lookup_none h4h
  refine ⟨h4, h4h, ?_, ?_, ?_⟩
  · unfold get_label
    rw [hlook]
  · unfold get_label_uri
    rw [hlook]
  · unfold get_label_info
    rw [hlook]

/-- Witness for C4: a datastore holding only image `b`, with an orphan
label file `a+1.nii` under the `final` tag (its inferred image `a` has no
group and no image file). -/
theorem orphan_label_not_adopted_witness :
    dictGet (reconcileModel
      (⟨⟨[⟨"b", ".nii"⟩], []⟩, [("final", ⟨[⟨"a+1", ".nii"⟩], []⟩)]⟩ : FileSystem)
      (mkModel [("b", imgEntry "b" ".nii")])).1.objects (imageIdOf "a+1") = none ∧
    ¬ holdsLabel (reconcileModel
      (⟨⟨[⟨"b", ".nii"⟩], []⟩, [("final", ⟨[⟨"a+1", ".nii"⟩], []⟩)]⟩ : FileSystem)
      (mkModel [("b", imgEntry "b" ".nii")])).1.objects "a+1" ∧
    get_label (mkState (reconcileModel
      (⟨⟨[⟨"b", ".nii"⟩], []⟩, [("final", ⟨[⟨"a+1", ".nii"⟩], []⟩)]⟩ : FileSystem)
      (mkModel [("b", imgEntry "b" ".nii")])).1
      (⟨⟨[⟨"b", ".nii"⟩], []⟩, [("final", ⟨[⟨"a+1", ".nii"⟩], []⟩)]⟩ : FileSystem) false) "a+1" = none ∧
    get_label_uri (mkState (reconcileModel
      (⟨⟨[⟨"b", ".nii"⟩], []⟩, [("final", ⟨[⟨"a+1", ".nii"⟩], []⟩)]⟩ : FileSystem)
      (mkModel [("b", imgEntry "b" ".nii")])).1
      (⟨⟨[⟨"b", ".nii"⟩], []⟩, [("final", ⟨[⟨"a+1", ".nii"⟩], []⟩)]⟩ : FileSystem) false) "a+1" = "" ∧
    get_label_info (mkState (reconcileModel
      (⟨⟨[⟨"b", ".nii"⟩], []⟩, [("final", ⟨[⟨"a+1", ".nii"⟩], []⟩)]⟩ : FileSystem)
      (mkModel [("b", imgEntry "b" ".nii")])).1
      (⟨⟨[⟨"b", ".nii"⟩], []⟩, [("final", ⟨[⟨"a+1", ".nii"⟩], []⟩)]⟩ : FileSystem) false) "a+1" = [] := by
  have h := orphan_label_not_adopted
    (mkModel [("b", imgEntry "b" ".nii")])
    (⟨⟨[⟨"b", ".nii"⟩], []⟩, [("final", ⟨[⟨"a+1", ".nii"⟩], []⟩)]⟩ : FileSystem)
    ("final", ⟨[⟨"a+1", ".nii"⟩], []⟩) ⟨"a+1", ".nii"⟩
    (mkState (reconcileModel
      (⟨⟨[⟨"b", ".nii"⟩], []⟩, [("final", ⟨[⟨"a+1", ".nii"⟩], []⟩)]⟩ : FileSystem)
      (mkModel [("b", imgEntry "b" ".nii")])).1
      (⟨⟨[⟨"b", ".nii"⟩], []⟩, [("final", ⟨[⟨"a+1", ".nii"⟩], []⟩)]⟩ : FileSystem) false)
    (List.mem_singleton.mpr rfl) (List.mem_singleton.mpr rfl) rfl
    (by intro g hg; simp only [List.mem_singleton] at hg; subst hg; decide)
    (by rintro ⟨kg, hkg, tl, htl, hx⟩
        simp only [mkModel, List.mem_singleton] at hkg
        subst hkg
        simp [imgEntry] at htl)
    rfl
  exact ⟨h.1, h.2.1, h.2.2.1, h.2.2.2.1, h.2.2.2.2⟩

/-! ## C9 — the label-id shape invariant -/
theorem string_data_ext {a b : String} (h : a.data = b.data) : a = b :=
  congrArg String.mk h

theorem string_append_data (a b : List Char) :
    ((⟨a⟩ : String) ++ (⟨b⟩ : String)) = (⟨a ++ b⟩ : String) := rfl

/-- Every string is its inferred image id, or that id followed by `+` and
the rest. -/
theorem imageIdOf_split (s : String) :
    s = imageIdOf s ∨ ∃ v, s = imageIdOf s ++ "+" ++ v := by
  obtain ⟨l⟩ := s
  have hsplit : l.takeWhile (fun c => !(c == '+')) ++
      l.dropWhile (fun c => !(c == '+')) = l :=
    List.takeWhile_append_dropWhile (fun c => !(c == '+')) l
  cases hd : l.dropWhile (fun c => !(c == '+')) with
  | nil =>
    left
    apply string_data_ext
    show l = l.takeWhile (fun c => !(c == '+'))
    rw [hd, List.append_nil] at hsplit
    exact hsplit.symm
  | cons c rest =>
    have hc : ¬ (fun c => !(c == '+')) c = true := by
      have := List.head?_dropWhile_not (fun c => !(c == '+')) l
      rw [hd] at this
      simpa using this
    have hc' : c = '+' := by simpa using hc
    rw [hd, hc'] at hsplit
    right
    refine ⟨⟨rest⟩, ?_⟩
    apply string_data_ext
    show l = ((⟨l.takeWhile (fun c => !(c == '+'))⟩ : String) ++
      (⟨['+']⟩ : String) ++ (⟨rest⟩ : String)).data
    rw [string_append_data, string_append_data]
    show l = l.takeWhile (fun c => !(c == '+')) ++ ['+'] ++ rest
    rw [List.append_assoc]
    exact hsplit.symm

theorem removeNonExisting_invShape {fs : FileSystem}
    {objects : List (String × ImageLabelModel)} (h : InvShape objects) :
    InvShape (removeNonExisting fs objects).1 := by
  intro kg hkg
  rcases removeNonExisting_mem hkg with ⟨g, hm, hi, _, hl⟩
  rcases h (kg.1, g) hm with ⟨hid, hlab⟩
  refine ⟨by rw [hi]; exact hid, ?_⟩
  intro tl htl
  rw [hi]
  exact hlab tl (hl tl htl).1

theorem addImagesLoop_invShape {stale : List String} {files : List FSFile}
    {objects : List (String × ImageLabelModel)} (h : InvShape objects) :
    InvShape (addImagesLoop stale files objects).1 := by
  intro kg hkg
  rcases addImagesLoop_mem hkg with h1 | ⟨f, _, he⟩
  · exact h kg h1
  · rw [he]
    exact ⟨rfl, by intro tl htl; simp at htl⟩

theorem addLabelsLoop_invShape {tag : String} {stale : List String}
    {files : List FSFile} {objects : List (String × ImageLabelModel)}
    (h : InvShape objects) :
    InvShape (addLabelsLoop tag stale files objects).1 := by
  induction files generalizing objects with
  | nil => exact h
  | cons f rest ih =>
    by_cases hf : f.base ∈ stale
    · simp only [addLabelsLoop, hf, if_true]
      exact ih h
    · simp only [addLabelsLoop, hf, if_false]
      cases hdg : dictGet objects (imageIdOf f.base) with
      | none => exact ih h
      | some obj =>
        apply ih
        intro kg hkg
        rcases mem_dictSet hkg with h1 | h1
        · exact h kg h1
        · subst h1
          rcases h (imageIdOf f.base, obj) (dictGet_mem hdg) with ⟨hid, hlab⟩
          refine ⟨hid, ?_⟩
          intro tl htl
          rcases mem_dictSet htl with h2 | h2
          · exact hlab tl h2
          · subst h2
            show f.base = obj.image.id ∨ ∃ v, f.base = obj.image.id ++ "+" ++ v
            rw [hid]
            exact imageIdOf_split f.base

theorem addLabelsTags_invShape {dirs : List (String × DirState)}
    {objects : List (String × ImageLabelModel)} (h : InvShape objects) :
    InvShape (addLabelsTags dirs objects).1 := by
  induction dirs generalizing objects with
  | nil => exact h
  | cons td rest ih =>
    obtain ⟨t0, d0⟩ := td
    show InvShape (addLabelsTags rest (addNonExistingLabels t0 d0 objects).1).1
    exact ih (addLabelsLoop_invShape h)

theorem reconcileModel_invShape {fs : FileSystem} {m : LocalDatastoreModel}
    (h : InvShape m.objects) : InvShape (reconcileModel fs m).1.objects := by
  show InvShape (removeNonExisting fs (addLabelsTags fs.labelDirs
    (addNonExistingImages fs (removeNonExisting fs m.objects).1).1).1).1
  exact removeNonExisting_invShape (addLabelsTags_invShape
    (addImagesLoop_invShape (removeNonExisting_invShape h)))

theorem invState_updateDatastoreFile {s : DatastoreState} (h : InvState s) :
    InvState (updateDatastoreFile s) := by
  refine ⟨h.1, ?_⟩
  intro m hm
  injection hm with hm
  injection hm with hm
  rw [← hm]
  exact h.1

theorem invState_initFromFile {s : DatastoreState} (h : InvState s) :
    InvState (initFromFile s) := by
  unfold initFromFile initFromFileT
  cases hc : s.configFile with
  | none => exact h
  | some parsed =>
    by_cases hts : (s.configTs == s.fileTs) = true
    · simp only [hts, if_true]
      exact h
    · simp only [hts, if_false]
      cases parsed with
      | none => exact h
      | some m =>
        refine ⟨h.2 m hc, ?_⟩
        intro m' hm'
        exact h.2 m' (hc ▸ hm')

theorem invState_reconcileDatastore {s : DatastoreState} (h : InvState s) :
    InvState (reconcileDatastore s).1 := by
  unfold reconcileDatastore
  split
  · exact invState_updateDatastoreFile ⟨reconcileModel_invShape h.1, h.2⟩
  · exact ⟨reconcileModel_invShape h.1, h.2⟩

theorem invState_refresh {s : DatastoreState} (h : InvState s) :
    InvState (refresh s) :=
  invState_reconcileDatastore (invState_initFromFile h)

theorem invState_fs_change {s : DatastoreState} (fs' : FileSystem)
    (h : InvState s) : InvState { s with fs := fs' } := h

theorem invState_remove_label_delete {s : DatastoreState} {lid : String}
    (h : InvState s) : InvState (remove_label_delete s lid) := by
  unfold remove_label_delete
  split
  · split
    · exact h
    · exact h
  · exact h

theorem invState_remove_label {s : DatastoreState} {lid : String}
    (h : InvState s) : InvState (remove_label s lid) := by
  unfold remove_label
  split
  · exact invState_remove_label_delete h
  · exact invState_refresh (invState_remove_label_delete h)

theorem invState_foldl_remove_label {lids : List String}
    {s : DatastoreState} (h : InvState s) :
    InvState (lids.foldl (fun acc lid => remove_label acc lid) s) := by
  induction lids generalizing s with
  | nil => exact h
  | cons lid rest ih => exact ih (invState_remove_label h)

theorem invState_remove_image_file {s : DatastoreState} {id : String}
    (h : InvState s) : InvState (remove_image_file s id) := by
  unfold remove_image_file
  split
  · split
    · exact h
    · exact h
  · exact h

/-- C9: every mutation performed through the façade or the Reconciler
preserves the invariant that, in every image-label group, the image id
matches the group's key and each label id equals the image id, optionally
followed by `+variant`; the invariant on the persisted file's content is
preserved as well. -/
theorem facade_preserves_id_invariant (op : FacadeOp) (s : DatastoreState)
    (h : InvState s) : InvState (applyOp op s) := by
  cases op with
  | addImage id src =>
    show InvState (add_image s id src).1
    unfold add_image
    split
    · exact h
    · exact invState_refresh h
  | removeImage id =>
    show InvState (remove_image s id)
    unfold remove_image
    split
    · exact invState_remove_image_file (invState_foldl_remove_label h)
    · exact invState_refresh (invState_remove_image_file (invState_foldl_remove_label h))
  | saveLabel id src tag info lid =>
    show InvState (save_label s id src tag info lid).2.1
    unfold save_label
    cases hdg : dictGet s.datastore.objects id with
    | none => exact h
    | some obj =>
      apply invState_updateDatastoreFile
      refine ⟨?_, h.2⟩
      intro kg hkg
      rcases mem_dictSet hkg with h1 | h1
      · exact h.1 kg h1
      · subst h1
        rcases h.1 (id, obj) (dictGet_mem hdg) with ⟨hid, hlab⟩
        refine ⟨hid, ?_⟩
        intro tl htl
        rcases mem_dictSet htl with h2 | h2
        · exact hlab tl h2
        · subst h2
          show (if (lid == "") = true then id else id ++ "+" ++ lid) = obj.image.id ∨ _
          rw [hid]
          by_cases hl : (lid == "") = true
          · left
            rw [if_pos hl]
          · right
            exact ⟨lid, by rw [if_neg hl]⟩
  | removeLabel lid => exact invState_remove_label h
  | removeLabelByTag tag =>
    show InvState (remove_label_by_tag s tag)
    unfold remove_label_by_tag
    exact invState_foldl_remove_label h
  | updateImageInfo id info =>
    show InvState (update_image_info s id info).2
    unfold update_image_info
    cases hdg : dictGet s.datastore.objects id with
    | none => exact h
    | some obj =>
      apply invState_updateDatastoreFile
      refine ⟨?_, h.2⟩
      intro kg hkg
      rcases mem_dictSet hkg with h1 | h1
      · exact h.1 kg h1
      · subst h1
        rcases h.1 (id, obj) (dictGet_mem hdg) with ⟨hid, hlab⟩
        exact ⟨hid, hlab⟩
  | updateLabelInfo id info =>
    show InvState (update_label_info s id info).2
    unfold update_label_info
    cases hm : s.datastore.objects with
    | nil => exact h
    | cons kg rest =>
      obtain ⟨k, g⟩ := kg
      cases hfind : g.labels.find? (fun p => p.2.id == id) with
      | none =>
        show InvState (match List.find? (fun (p : String × DataModel) => p.2.id == id) g.labels with
          | none => (some Exn.labelNotFound, s)
          | some (tag, l) => update_label_info_found s info k g rest tag l).2
        rw [hfind]
        exact h
      | some tl =>
        obtain ⟨tag, l⟩ := tl
        show InvState (match List.find? (fun (p : String × DataModel) => p.2.id == id) g.labels with
          | none => (some Exn.labelNotFound, s)
          | some (tag, l) => update_label_info_found s info k g rest tag l).2
        rw [hfind]
        show InvState (update_label_info_found s info k g rest tag l).2
        apply invState_updateDatastoreFile
        refine ⟨?_, h.2⟩
        intro kg' hkg'
        rcases List.mem_cons.mp hkg' with h1 | h1
        · subst h1
          rcases h.1 (k, g) (hm ▸ List.mem_cons_self _ _) with ⟨hid, hlab⟩
          refine ⟨hid, ?_⟩
          intro tl' htl'
          rcases mem_dictSet htl' with h2 | h2
          · exact hlab tl' h2
          · subst h2
            exact hlab (tag, l) (List.mem_of_find?_eq_some hfind)
        · exact h.1 kg' (hm ▸ List.mem_cons_of_mem _ h1)
  | setName n => exact invState_updateDatastoreFile h
  | setDescription d => exact invState_updateDatastoreFile h
  | refreshOp => exact invState_refresh h

/-- Witness for C9: saving a variant label on a one-image datastore. -/
theorem facade_preserves_id_invariant_witness :
    InvState (applyOp
      (FacadeOp.saveLabel "a" ⟨"l", ".nii"⟩ "final" [] "x")
      (mkState (mkModel [("a", imgEntry "a" ".nii")])
        ⟨⟨[⟨"a", ".nii"⟩], []⟩, [("final", ⟨[], []⟩)]⟩ false)) := by
  apply facade_preserves_id_invariant
  constructor
  · intro kg hkg
    simp only [mkState, mkModel, List.mem_singleton] at hkg
    subst hkg
    refine ⟨rfl, ?_⟩
    intro tl htl
    simp [imgEntry] at htl
  · intro m hm
    injection hm with hm
    injection hm with hm
    rw [← hm]
    intro kg hkg
    simp only [mkModel, List.mem_singleton] at hkg
    subst hkg
    refine ⟨rfl, ?_⟩
    intro tl htl
    simp [imgEntry] at htl

/-! ## C1 — `remove_image` cascade

Infrastructure: small filesystem lemmas, plus-free key bookkeeping,
image-field stability of the reconciler, and the behaviour of `refresh`
on a steady-timestamp state. -/
/-- Deleting a label file leaves the image root untouched. -/
theorem removeLabelName_images (fs : FileSystem) (tag n : String) :
    (fs.removeLabelName tag n).images = fs.images := rfl

/-- Deleting an image file leaves the label directories untouched. -/
theorem removeImageName_labelDirs (fs : FileSystem) (n : String) :
    (fs.removeImageName n).labelDirs = fs.labelDirs := rfl

/-- After deleting a name from a directory, the name is gone. -/
theorem hasName_removeName_self (d : DirState) (n : String) :
    (d.removeName n).hasName n = false := by
  unfold DirState.removeName DirState.hasName
  apply Bool.or_eq_false_iff.mpr
  constructor
  · apply List.any_eq_false.mpr
    intro f hf
    rcases List.mem_filter.mp hf with ⟨_, hok⟩
    simpa using hok
  · cases hcon : (d.extra.filter (fun e => !(e == n))).contains n with
    | false => rfl
    | true =>
      rcases List.mem_filter.mp (contains_iff_mem.mp hcon) with ⟨_, hok⟩
      simp at hok

/-- A key-preserving map does not change the key list of a dict. -/
theorem keysOf_map_fst {α : Type} (f : (String × α) → (String × α))
    (hf : ∀ td, (f td).1 = td.1) (l : List (String × α)) :
    keysOf (l.map f) = keysOf l := by
  induction l with
  | nil => rfl
  | cons td rest ih =>
    simp only [keysOf, List.map_cons] at ih ⊢
    rw [hf td, ih]

/-- Deleting a label file keeps the tag-directory key list. -/
theorem keysOf_removeLabelName (fs : FileSystem) (tag n : String) :
    keysOf (fs.removeLabelName tag n).labelDirs = keysOf fs.labelDirs := by
  show keysOf (fs.labelDirs.map fun td =>
      if td.1 == tag then (td.1, td.2.removeName n) else td) =
    keysOf fs.labelDirs
  apply keysOf_map_fst
  intro td
  by_cases h : (td.1 == tag) = true
  · rw [if_pos h]
  · rw [if_neg h]

/-- Deleting a label file preserves tag-directory uniqueness. -/
theorem tagDirsNodup_removeLabelName {fs : FileSystem} (h : TagDirsNodup fs)
    (tag n : String) : TagDirsNodup (fs.removeLabelName tag n) := by
  show (keysOf (fs.removeLabelName tag n).labelDirs).Nodup
  rw [keysOf_removeLabelName]
  exact h

/-- Deleting a label file preserves the per-tag one-label-per-image
property (the file sets only shrink). -/
theorem tagUnique_removeLabelName {fs : FileSystem} (htu : TagUnique fs)
    (tag n : String) : TagUnique (fs.removeLabelName tag n) := by
  intro td htd f1 h1 f2 h2 he
  have htd' : td ∈ fs.labelDirs.map fun td =>
      if td.1 == tag then (td.1, td.2.removeName n) else td := htd
  rcases List.mem_map.mp htd' with ⟨td0, htd0, hfeq⟩
  have hfiles : ∀ f, f ∈ td.2.files → f ∈ td0.2.files := by
    intro f hf
    by_cases hc : (td0.1 == tag) = true
    · rw [if_pos hc] at hfeq
      rw [← hfeq] at hf
      exact (List.mem_filter.mp hf).1
    · rw [if_neg hc] at hfeq
      rw [← hfeq] at hf
      exact hf
  exact htu td0 htd0 f1 (hfiles f1 h1) f2 (hfiles f2 h2) he

/-- A key of the reconciled index comes from the old index or from a
listed image file stem. -/
theorem reconcileModel_keys_sub {fs : FileSystem} {m : LocalDatastoreModel}
    {k : String} (h : k ∈ keysOf (reconcileModel fs m).1.objects) :
    k ∈ keysOf m.objects ∨ ∃ f ∈ fs.images.files, f.base = k := by
  have h4 : k ∈ keysOf (removeNonExisting fs
      (addLabelsTags fs.labelDirs
        (addNonExistingImages fs (removeNonExisting fs m.objects).1).1).1).1 := h
  have h3 : k ∈ keysOf (addLabelsTags fs.labelDirs
      (addNonExistingImages fs (removeNonExisting fs m.objects).1).1).1 :=
    (removeNonExisting_keys_sublist _ _).subset h4
  rw [addLabelsTags_keys] at h3
  rcases mem_keysOf.mp h3 with ⟨g, hmem⟩
  have hmem' : (k, g) ∈ (addImagesLoop
      (keysOf (removeNonExisting fs m.objects).1) fs.images.files
      (removeNonExisting fs m.objects).1).1 := hmem
  rcases addImagesLoop_mem hmem' with h1 | ⟨f, hf, he⟩
  · exact Or.inl ((removeNonExisting_keys_sublist fs m.objects).subset
      (mem_keysOf.mpr ⟨g, h1⟩))
  · refine Or.inr ⟨f, hf, ?_⟩
    have := congrArg Prod.fst he
    exact this.symm

/-- Reconciliation preserves plus-free keys when the listed image file
stems are plus-free. -/
theorem reconcileModel_plusFree {fs : FileSystem} {m : LocalDatastoreModel}
    (hpf : PlusFreeKeys m.objects) (hipf : imagesPlusFree fs.images) :
    PlusFreeKeys (reconcileModel fs m).1.objects := by
  intro k hk
  rcases reconcileModel_keys_sub hk with h | ⟨f, hf, he⟩
  · exact hpf k h
  · rw [← he]
    exact hipf f hf

/-- Pass 3's loop never changes the `image` field at any key. -/
theorem addLabelsLoop_image_stable (tag : String) (stale : List String)
    (files : List FSFile) (objects : List (String × ImageLabelModel))
    (k : String) :
    Option.map (fun g => g.image)
        (dictGet (addLabelsLoop tag stale files objects).1 k) =
      Option.map (fun g => g.image) (dictGet objects k) := by
  induction files generalizing objects with
  | nil => rfl
  | cons f rest ih =>
    by_cases hf : f.base ∈ stale
    · simp only [addLabelsLoop, hf, if_true]
      exact ih objects
    · simp only [addLabelsLoop, hf, if_false]
      cases hdg : dictGet objects (imageIdOf f.base) with
      | none => exact ih objects
      | some obj =>
        refine Eq.trans (ih (dictSet objects (imageIdOf f.base)
          { obj with labels := dictSet obj.labels tag ⟨f.base, f.ext, []⟩ })) ?_
        by_cases hk : k = imageIdOf f.base
        · subst hk
          rw [dictGet_dictSet_self, hdg]
          rfl
        · rw [dictGet_dictSet_ne _ _ _ _ hk]

/-- Pass 3 never changes the `image` field at any key. -/
theorem addLabelsTags_image_stable (dirs : List (String × DirState))
    (objects : List (String × ImageLabelModel)) (k : String) :
    Option.map (fun g => g.image)
        (dictGet (addLabelsTags dirs objects).1 k) =
      Option.map (fun g => g.image) (dictGet objects k) := by
  induction dirs generalizing objects with
  | nil => rfl
  | cons td rest ih =>
    obtain ⟨t0, d0⟩ := td
    refine Eq.trans (ih (addNonExistingLabels t0 d0 objects).1) ?_
    exact addLabelsLoop_image_stable _ _ _ _ _

/-- A group whose image file exists survives the whole reconciliation
with its `image` field intact. -/
theorem reconcileModel_get_image {fs : FileSystem} {m : LocalDatastoreModel}
    {id : String} {g : ImageLabelModel}
    (hg : dictGet m.objects id = some g)
    (himg : fs.hasImage g.image.path = true) :
    ∃ g2, dictGet (reconcileModel fs m).1.objects id = some g2 ∧
      g2.image = g.image := by
  have h1 : dictGet (removeNonExisting fs m.objects).1 id =
      some ⟨g.image, (pruneLabels fs g.labels).1⟩ :=
    removeNonExisting_get hg himg
  have h2 : dictGet (addNonExistingImages fs
      (removeNonExisting fs m.objects).1).1 id =
      some ⟨g.image, (pruneLabels fs g.labels).1⟩ :=
    (addImagesLoop_get_stale (mem_keys_of_dictGet h1)).trans h1
  have h3 := addLabelsTags_image_stable fs.labelDirs
    (addNonExistingImages fs (removeNonExisting fs m.objects).1).1 id
  rw [h2] at h3
  cases hdg : dictGet (addLabelsTags fs.labelDirs
      (addNonExistingImages fs (removeNonExisting fs m.objects).1).1).1 id with
  | none =>
    rw [hdg] at h3
    simp at h3
  | some g3 =>
    rw [hdg] at h3
    have hg3 : g3.image = g.image := by simpa using h3
    have h4 : dictGet (removeNonExisting fs
        (addLabelsTags fs.labelDirs
          (addNonExistingImages fs (removeNonExisting fs m.objects).1).1).1).1
        id = some ⟨g3.image, (pruneLabels fs g3.labels).1⟩ :=
      removeNonExisting_get hdg (by rw [hg3]; exact himg)
    exact ⟨⟨g3.image, (pruneLabels fs g3.labels).1⟩, h4, hg3⟩

/-- On a steady-timestamp state, `refresh` skips the reload and runs only
the reconciliation. -/
theorem refresh_steady {s : DatastoreState} (h : s.configTs = s.fileTs) :
    refresh s = (if (reconcileModel s.fs s.datastore).2 != 0 then
        updateDatastoreFile
          { s with datastore := (reconcileModel s.fs s.datastore).1 }
      else { s with datastore := (reconcileModel s.fs s.datastore).1 }) := by
  unfold refresh refreshC
  rw [initFromFile_skip h]
  rfl

/-- The fields of `refresh s` on a steady-timestamp state: the index is
the reconciled one, the filesystem and the auto-reload flag are
untouched, and the timestamps are steady again. -/
theorem refresh_steady_fields {s : DatastoreState}
    (h : s.configTs = s.fileTs) :
    (refresh s).datastore = (reconcileModel s.fs s.datastore).1 ∧
    (refresh s).fs = s.fs ∧
    (refresh s).configTs = (refresh s).fileTs ∧
    (refresh s).autoReload = s.autoReload := by
  rw [refresh_steady h]
  by_cases hn : (reconcileModel s.fs s.datastore).2 = 0
  · rw [if_neg (by simp [hn])]
    exact ⟨rfl, rfl, h, rfl⟩
  · rw [if_pos (by simp [hn])]
    exact ⟨rfl, rfl, rfl, rfl⟩

/-- `refresh` is the identity on a steady, consistent state. -/
theorem refresh_id {s : DatastoreState} (hts : s.configTs = s.fileTs)
    (hc : Consistent s.fs s.datastore.objects) : refresh s = s := by
  rw [refresh_steady hts]
  have hrec := reconcileModel_id s.fs s.datastore hc
  rw [if_neg (by simp [hrec]), hrec]

/-- If every group holding the label id is the group `id`, and pass 1
drops the group `id`, the label id is no longer held anywhere. -/
theorem removeNonExisting_owner_not_holds {fs : FileSystem}
    {objects : List (String × ImageLabelModel)} {x id : String}
    (hown : ∀ kg ∈ objects, (∃ tl ∈ kg.2.labels, tl.2.id = x) → kg.1 = id)
    (hdrop : id ∉ keysOf (removeNonExisting fs objects).1) :
    ¬ holdsLabel (removeNonExisting fs objects).1 x := by
  rintro ⟨kg, hkg, tl, htl, hx⟩
  rcases removeNonExisting_mem hkg with ⟨g, hm, _, _, hl⟩
  have hk : kg.1 = id := hown (kg.1, g) hm ⟨tl, (hl tl htl).1, hx⟩
  apply hdrop
  rw [← hk]
  exact mem_keysOf.mpr ⟨kg.2, hkg⟩

/-- `refresh` re-establishes the cascade invariant from its pre-refresh
fragments. -/
theorem refresh_cascadeInv {img0 : DirState} {id : String} {img : DataModel}
    (hipf : imagesPlusFree img0) {s : DatastoreState}
    (har : s.autoReload = false) (hts : s.configTs = s.fileTs)
    (hfsi : s.fs.images = img0) (hndd : TagDirsNodup s.fs)
    (htu : TagUnique s.fs) (hnd : NodupKeys s.datastore.objects)
    (hinv : InvIds s.datastore.objects) (hpf : PlusFreeKeys s.datastore.objects)
    (hsur : ∃ g, dictGet s.datastore.objects id = some g ∧ g.image = img ∧
      s.fs.hasImage g.image.path = true) :
    CascadeInv img0 id img (refresh s) := by
  obtain ⟨hds, hfs, hts2, har2⟩ := refresh_steady_fields hts
  refine ⟨?_, hts2, ?_, ?_, ?_, ?_, ?_, ?_⟩
  · rw [har2]
    exact har
  · rw [hfs]
    exact hfsi
  · rw [hfs]
    exact hndd
  · rw [hfs]
    exact htu
  · rw [hfs, hds]
    exact reconcileModel_consistent s.fs s.datastore hnd hinv hndd htu
  · rw [hds]
    exact reconcileModel_plusFree hpf (fun f hf => hipf f (hfsi ▸ hf))
  · obtain ⟨g, hg, hgi, himg⟩ := hsur
    rw [hds]
    obtain ⟨g2, hg2, hgi2⟩ := reconcileModel_get_image hg himg
    exact ⟨g2, hg2, hgi2.trans hgi⟩

/-- One step of the cascade (`remove_label` on any id) preserves the
invariant. -/
theorem remove_label_cascadeInv {img0 : DirState} {id : String}
    {img : DataModel} (hipf : imagesPlusFree img0) {s : DatastoreState}
    (h : CascadeInv img0 id img s) (x : String) :
    CascadeInv img0 id img (remove_label s x) := by
  obtain ⟨har, hts, hfsi, hndd, htu, hcons, hpf, g, hg, hgi⟩ := h
  have hrl : remove_label s x = refresh (remove_label_delete s x) := by
    unfold remove_label
    rw [har]
    rfl
  rw [hrl]
  have hbase : remove_label_delete s x = s →
      CascadeInv img0 id img (refresh (remove_label_delete s x)) := by
    intro hd
    rw [hd, refresh_id hts hcons]
    exact ⟨har, hts, hfsi, hndd, htu, hcons, hpf, g, hg, hgi⟩
  rcases hlk : s.datastore.label x with ⟨ot, ol⟩
  cases ot with
  | none =>
    cases ol with
    | none =>
      exact hbase (by unfold remove_label_delete; rw [hlk])
    | some l =>
      exact hbase (by unfold remove_label_delete; rw [hlk])
  | some tag =>
    cases ol with
    | none =>
      exact hbase (by unfold remove_label_delete; rw [hlk])
    | some l =>
      cases hhas : s.fs.hasLabel tag l.path with
      | false =>
        refine hbase ?_
        unfold remove_label_delete
        rw [hlk]
        show (if s.fs.hasLabel tag l.path = true then
            { s with fs := s.fs.removeLabelName tag l.path } else s) = s
        rw [if_neg (by simp [hhas])]
      | true =>
        have hd : remove_label_delete s x =
            { s with fs := s.fs.removeLabelName tag l.path } := by
          unfold remove_label_delete
          rw [hlk]
          show (if s.fs.hasLabel tag l.path = true then
              { s with fs := s.fs.removeLabelName tag l.path } else s) = _
          rw [if_pos hhas]
        rw [hd]
        apply refresh_cascadeInv hipf
        · exact har
        · exact hts
        · exact hfsi
        · exact tagDirsNodup_removeLabelName hndd tag l.path
        · exact tagUnique_removeLabelName htu tag l.path
        · exact hcons.1
        · exact hcons.2.1
        · exact hpf
        · refine ⟨g, hg, hgi, ?_⟩
          exact hcons.2.2.1 (id, g) (dictGet_mem hg)

/-- The whole label cascade preserves the invariant. -/
theorem foldl_remove_label_cascadeInv {img0 : DirState} {id : String}
    {img : DataModel} (hipf : imagesPlusFree img0) (lids : List String)
    {s : DatastoreState} (h : CascadeInv img0 id img s) :
    CascadeInv img0 id img
      (lids.foldl (fun acc lid => remove_label acc lid) s) := by
  induction lids generalizing s with
  | nil => exact h
  | cons y rest ih => exact ih (remove_label_cascadeInv hipf h y)

/-- After the cascade, deleting the image file (the only listed image
file with stem `id`) and refreshing drops the group `id` for good: its
key is gone from the index and no label id owned by `id` is held
anywhere. -/
theorem remove_image_final {img0 : DirState} {id : String} {img : DataModel}
    {s1 : DatastoreState} (h : CascadeInv img0 id img s1)
    (hstem : ∀ f ∈ img0.files, f.base = id → f.name = img.path) :
    dictGet (refresh (remove_image_file s1 id)).datastore.objects id =
      none ∧
    ∀ x, imageIdOf x = id →
      ¬ holdsLabel (refresh (remove_image_file s1 id)).datastore.objects x := by
  obtain ⟨har, hts, hfsi, hndd, htu, hcons, hpf, g1, hg1, hgi⟩ := h
  obtain ⟨hnd, hinv, himgOK, _, _, _⟩ := hcons
  have himg1 : s1.fs.hasImage g1.image.path = true :=
    himgOK (id, g1) (dictGet_mem hg1)
  have hrif : remove_image_file s1 id =
      { s1 with fs := s1.fs.removeImageName g1.image.path } := by
    unfold remove_image_file
    rw [hg1]
    show (if s1.fs.hasImage g1.image.path = true then
        { s1 with fs := s1.fs.removeImageName g1.image.path } else s1) = _
    rw [if_pos himg1]
  rw [hrif]
  obtain ⟨hds, _, _, _⟩ :=
    @refresh_steady_fields
      { s1 with fs := s1.fs.removeImageName g1.image.path } hts
  have himgF : (s1.fs.removeImageName g1.image.path).hasImage
      g1.image.path = false := hasName_removeName_self s1.fs.images _
  have hdrop : id ∉ keysOf (removeNonExisting
      (s1.fs.removeImageName g1.image.path) s1.datastore.objects).1 :=
    removeNonExisting_drop hnd hg1 himgF
  have h1n : dictGet (removeNonExisting
      (s1.fs.removeImageName g1.image.path) s1.datastore.objects).1 id =
      none := dictGet_none_of_not_mem_keys hdrop
  have hNoB : ∀ f ∈ (s1.fs.removeImageName g1.image.path).images.files,
      f.base ≠ id := by
    intro f hf hb
    rcases List.mem_filter.mp hf with ⟨hmem0, hnn⟩
    have hnm : f.name = img.path := hstem f (hfsi ▸ hmem0) hb
    rw [← hgi] at hnm
    simp [hnm] at hnn
  have h2n : dictGet (addNonExistingImages
      (s1.fs.removeImageName g1.image.path)
      (removeNonExisting (s1.fs.removeImageName g1.image.path)
        s1.datastore.objects).1).1 id = none :=
    addImagesLoop_get_none h1n hNoB
  have h3n : dictGet (addLabelsTags
      (s1.fs.removeImageName g1.image.path).labelDirs
      (addNonExistingImages (s1.fs.removeImageName g1.image.path)
        (removeNonExisting (s1.fs.removeImageName g1.image.path)
          s1.datastore.objects).1).1).1 id = none :=
    addLabelsTags_get_none h2n
  have h4n : dictGet (removeNonExisting
      (s1.fs.removeImageName g1.image.path)
      (addLabelsTags (s1.fs.removeImageName g1.image.path).labelDirs
        (addNonExistingImages (s1.fs.removeImageName g1.image.path)
          (removeNonExisting (s1.fs.removeImageName g1.image.path)
            s1.datastore.objects).1).1).1).1 id = none :=
    removeNonExisting_get_none h3n
  constructor
  · rw [hds]
    exact h4n
  · intro x hx
    rw [hds]
    have hown : ∀ kg ∈ s1.datastore.objects,
        (∃ tl ∈ kg.2.labels, tl.2.id = x) → kg.1 = id := by
      rintro kg hkg ⟨tl, htl, hid2⟩
      have h1 := hinv kg hkg tl htl
      have h2 : imageIdOf kg.1 = kg.1 :=
        hpf kg.1 (mem_keysOf.mpr ⟨kg.2, hkg⟩)
      rw [hid2, hx, h2] at h1
      exact h1.symm
    have n1 : ¬ holdsLabel (removeNonExisting
        (s1.fs.removeImageName g1.image.path) s1.datastore.objects).1 x :=
      removeNonExisting_owner_not_holds hown hdrop
    have n2 : ¬ holdsLabel (addNonExistingImages
        (s1.fs.removeImageName g1.image.path)
        (removeNonExisting (s1.fs.removeImageName g1.image.path)
          s1.datastore.objects).1).1 x :=
      addImagesLoop_not_holds n1
    have hx2 : dictGet (addNonExistingImages
        (s1.fs.removeImageName g1.image.path)
        (removeNonExisting (s1.fs.removeImageName g1.image.path)
          s1.datastore.objects).1).1 (imageIdOf x) = none := by
      rw [hx]
      exact h2n
    have n3 : ¬ holdsLabel (addLabelsTags
        (s1.fs.removeImageName g1.image.path).labelDirs
        (addNonExistingImages (s1.fs.removeImageName g1.image.path)
          (removeNonExisting (s1.fs.removeImageName g1.image.path)
            s1.datastore.objects).1).1).1 x :=
      addLabelsTags_not_holds hx2 n2
    exact removeNonExisting_not_holds n3

/-- C1: with auto-reload off, steady timestamps, an index consistent with
the filesystem and carrying plus-free keys, well-formed tag directories,
plus-free image stems, and (for the present-id case) `id` being the stem
of exactly one listed image file — the one recorded in its group —
`remove_image(id)` removes `id` from `list_images()` and every label id
previously held under any tag of the group stops resolving through
`get_label` / `get_label_uri` / `get_label_info`; `remove_image` of an
unknown id returns the state unchanged.  (Without the unique-stem
hypothesis the claim is false: see the duplicate-stem counterexample.) -/
theorem remove_image_cascade (s : DatastoreState) (id : String)
    (har : s.autoReload = false) (hts : s.configTs = s.fileTs)
    (hcons : Consistent s.fs s.datastore.objects)
    (hndd : TagDirsNodup s.fs) (htu : TagUnique s.fs)
    (hpf : PlusFreeKeys s.datastore.objects)
    (hipf : imagesPlusFree s.fs.images)
    (hid : imageIdOf id = id) :
    (∀ g, dictGet s.datastore.objects id = some g →
      (∀ f ∈ s.fs.images.files, f.base = id → f.name = g.image.path) →
      id ∉ list_images (remove_image s id) ∧
      ∀ tl ∈ g.labels,
        get_label (remove_image s id) tl.2.id = none ∧
        get_label_uri (remove_image s id) tl.2.id = "" ∧
        get_label_info (remove_image s id) tl.2.id = []) ∧
    (dictGet s.datastore.objects id = none → remove_image s id = s) := by
  have hri : remove_image s id =
      refresh (remove_image_file (remove_image_labels s id) id) := by
    unfold remove_image
    rw [har]
    rfl
  constructor
  · intro g hg hstem
    have h0 : CascadeInv s.fs.images id g.image s :=
      ⟨har, hts, rfl, hndd, htu, hcons, hpf, g, hg, rfl⟩
    have h1 : CascadeInv s.fs.images id g.image (remove_image_labels s id) :=
      foldl_remove_label_cascadeInv hipf
        (keysOf (get_labels_by_image_id s id)) h0
    have hfin := remove_image_final h1 hstem
    rw [hri]
    constructor
    · show id ∉ keysOf _
      exact dictGet_none_not_mem_keys hfin.1
    · intro tl htl
      have hxid : imageIdOf tl.2.id = id := by
        have h2 := hcons.2.1 (id, g) (dictGet_mem hg) tl htl
        rw [hid] at h2
        exact h2
      have hnh := hfin.2 tl.2.id hxid
      have hlk : (refresh (remove_image_file (remove_image_labels s id)
          id)).datastore.label tl.2.id = (none, none) :=
        label_lookup_none hnh
      refine ⟨?_, ?_, ?_⟩
      · unfold get_label
        rw [hlk]
      · unfold get_label_uri
        rw [hlk]
      · unfold get_label_info
        rw [hlk]
  · intro hnone
    have hlbl : get_labels_by_image_id s id = [] := by
      unfold get_labels_by_image_id
      rw [hnone]
    have hcascade : remove_image_labels s id = s := by
      unfold remove_image_labels
      rw [hlbl]
      rfl
    have hfile : remove_image_file s id = s := by
      unfold remove_image_file
      rw [hnone]
    rw [hri, hcascade, hfile, refresh_id hts hcons]

/-- C1 counterexample: on a consistent index whose image root holds two
files with stem `x` (`x.nii`, recorded, and `x.nii.gz`), `remove_image
"x"` deletes only the recorded file, and the closing `refresh()` adopts
the leftover `x.nii.gz` as a brand-new group — so `list_images()` still
contains `x`, contradicting the claim. -/
theorem remove_image_readds_duplicate_stem :
    Consistent dupStemState.fs dupStemState.datastore.objects ∧
    (dictGet dupStemState.datastore.objects "x").isSome = true ∧
    "x" ∈ list_images (remove_image dupStemState "x") := by
  refine ⟨⟨?_, ?_, ?_, ?_, ?_, ?_⟩, rfl, ?_⟩
  · show (keysOf dupStemState.datastore.objects).Nodup
    decide
  · intro kg hkg tl htl
    have hkg2 : kg = ("x", imgEntry "x" ".nii") := List.mem_singleton.mp hkg
    subst hkg2
    exact absurd htl (List.not_mem_nil tl)
  · intro kg hkg
    have hkg2 : kg = ("x", imgEntry "x" ".nii") := List.mem_singleton.mp hkg
    subst hkg2
    rfl
  · intro kg hkg tl htl
    have hkg2 : kg = ("x", imgEntry "x" ".nii") := List.mem_singleton.mp hkg
    subst hkg2
    exact absurd htl (List.not_mem_nil tl)
  · intro f hf
    rcases List.mem_cons.mp hf with h1 | h1
    · subst h1
      decide
    · have h2 : f = ⟨"x", ".nii.gz"⟩ := List.mem_singleton.mp h1
      subst h2
      decide
  · intro td htd
    exact absurd htd (List.not_mem_nil td)
  · have h : list_images (remove_image dupStemState "x") = ["x"] := rfl
    rw [h]
    exact List.mem_singleton.mpr rfl

/-- Witness for the amended C1 at `cascadeState`: removing image `a`
leaves `list_images()` without `a` and its `final` label id `a`
unresolvable through every lookup. -/
theorem remove_image_cascade_witness :
    "a" ∉ list_images (remove_image cascadeState "a") ∧
    get_label (remove_image cascadeState "a") "a" = none ∧
    get_label_uri (remove_image cascadeState "a") "a" = "" ∧
    get_label_info (remove_image cascadeState "a") "a" = [] := by
  have hcons : Consistent cascadeState.fs cascadeState.datastore.objects := by
    refine ⟨?_, ?_, ?_, ?_, ?_, ?_⟩
    · show (keysOf cascadeState.datastore.objects).Nodup
      decide
    · intro kg hkg tl htl
      have hkg2 : kg =
          ("a", ⟨⟨"a", ".nii", []⟩, [("final", ⟨"a", ".nii", []⟩)]⟩) :=
        List.mem_singleton.mp hkg
      subst hkg2
      have htl2 : tl = ("final", (⟨"a", ".nii", []⟩ : DataModel)) :=
        List.mem_singleton.mp htl
      subst htl2
      rfl
    · intro kg hkg
      have hkg2 : kg =
          ("a", ⟨⟨"a", ".nii", []⟩, [("final", ⟨"a", ".nii", []⟩)]⟩) :=
        List.mem_singleton.mp hkg
      subst hkg2
      rfl
    · intro kg hkg tl htl
      have hkg2 : kg =
          ("a", ⟨⟨"a", ".nii", []⟩, [("final", ⟨"a", ".nii", []⟩)]⟩) :=
        List.mem_singleton.mp hkg
      subst hkg2
      have htl2 : tl = ("final", (⟨"a", ".nii", []⟩ : DataModel)) :=
        List.mem_singleton.mp htl
      subst htl2
      rfl
    · intro f hf
      have hf2 : f = ⟨"a", ".nii"⟩ := List.mem_singleton.mp hf
      subst hf2
      decide
    · intro td htd f hf
      have htd2 : td = ("final", (⟨[⟨"a", ".nii"⟩], []⟩ : DirState)) :=
        List.mem_singleton.mp htd
      subst htd2
      have hf2 : f = ⟨"a", ".nii"⟩ := List.mem_singleton.mp hf
      subst hf2
      left
      decide
  have hndd : TagDirsNodup cascadeState.fs := by
    show (keysOf cascadeState.fs.labelDirs).Nodup
    decide
  have htu : TagUnique cascadeState.fs := by
    intro td htd f1 h1 f2 h2 _
    have htd2 : td = ("final", (⟨[⟨"a", ".nii"⟩], []⟩ : DirState)) :=
      List.mem_singleton.mp htd
    subst htd2
    have h1b : f1 = ⟨"a", ".nii"⟩ := List.mem_singleton.mp h1
    have h2b : f2 = ⟨"a", ".nii"⟩ := List.mem_singleton.mp h2
    rw [h1b, h2b]
  have hpf : PlusFreeKeys cascadeState.datastore.objects := by
    intro k hk
    have hk2 : k = "a" := List.mem_singleton.mp hk
    subst hk2
    decide
  have hipf : imagesPlusFree cascadeState.fs.images := by
    intro f hf
    have hf2 : f = ⟨"a", ".nii"⟩ := List.mem_singleton.mp hf
    subst hf2
    decide
  have hstem : ∀ f ∈ cascadeState.fs.images.files, f.base = "a" →
      f.name = ((⟨⟨"a", ".nii", []⟩,
        [("final", ⟨"a", ".nii", []⟩)]⟩ : ImageLabelModel)).image.path := by
    intro f hf _
    have hf2 : f = ⟨"a", ".nii"⟩ := List.mem_singleton.mp hf
    subst hf2
    rfl
  have h := (remove_image_cascade cascadeState "a" rfl rfl hcons hndd htu
      hpf hipf (by decide)).1
    ⟨⟨"a", ".nii", []⟩, [("final", ⟨"a", ".nii", []⟩)]⟩ rfl hstem
  have hmem : (("final", (⟨"a", ".nii", []⟩ : DataModel))) ∈
      [("final", (⟨"a", ".nii", []⟩ : DataModel))] :=
    List.mem_singleton.mpr rfl
  exact ⟨h.1, (h.2 _ hmem).1, (h.2 _ hmem).2.1, (h.2 _ hmem).2.2⟩

end MonaiLocal
